import Mathlib

/-!
# caddy-combine-ip-ranges: the `combine` IP range source

A shallow embedding of `combine.go`.  The module holds an ordered list of child
IP range sources, asks each one for its prefixes per request and concatenates
the answers.

Modelling conventions.

* Go `error` values are their messages; `nil` is `none`.
* A method with a pointer receiver returns the receiver's new state next to its
  Go results.
* Children may have effects of their own.  These act on a state of type `W`
  (the children's world), which is threaded through every child call in the
  order the Go code makes the calls.  The component itself is not part of `W`.
* The host (Caddy) is not part of the repository.  What the package calls of it
  is modelled below, each piece under a comment that says so.
-/

namespace Combine

/-! ## Data model -/

/-- Address part of a `netip.Prefix`: an IPv4 address (four octets) or an IPv6
address (eight 16-bit groups). -/
inductive Addr where
  | v4 (a b c d : Nat)
  | v6 (groups : List Nat)
  deriving DecidableEq, Repr

/-- Value of type `netip.Prefix`: an address and a prefix length.  The package
never looks inside one. -/
structure Prefix where
  addr : Addr
  bits : Nat
  deriving DecidableEq, Repr

/-- Value of type `http.Request`, as far as a range source may look at it. -/
structure Request where
  Method : String
  Host : String
  RemoteAddr : String
  deriving DecidableEq, Repr

/-- JSON documents.  A `json.RawMessage` is modelled by the document it
encodes; an object is the list of its members. -/
inductive JSONValue where
  | null
  | bool (b : Bool)
  | number (n : Int)
  | string (s : String)
  | array (items : List JSONValue)
  | object (members : List (String × JSONValue))

/-- Go type `json.RawMessage`. -/
abbrev RawMessage := JSONValue

/-- Interface `caddyhttp.IPRangeSource`: one method, which is given the request
(a pointer, so possibly nil) and answers with prefixes.  The second argument
and result are the children's world before and after the call. -/
structure IPRangeSource (W : Type) where
  GetIPRanges : Option Request → W → List Prefix × W

/-- A module instance as the host hands it over (`caddy.Module`, or an element
of the `[]any` that `LoadModule` returns).

* `goType` is its dynamic type as `%T` prints it,
* `ID` is `CaddyModule().ID`,
* `json` is its `encoding/json` encoding,
* `asIPRangeSource` is the outcome of the type assertion
  `val.(caddyhttp.IPRangeSource)`: `none` when the assertion fails. -/
structure Module (W : Type) where
  goType : String
  ID : String
  json : JSONValue
  asIPRangeSource : Option (IPRangeSource W)

/-- A `zap.Logger`, identified by its name. -/
structure Logger where
  name : String
  deriving DecidableEq, Repr

/-- One emitted log record. -/
structure LogEntry where
  level : String
  msg : String
  deriving DecidableEq, Repr

/-- Modelled from the spec: the host's module-resolution mechanism
(`caddy.Context`), which is not under src/.  `loadModuleInline key ns raw`
resolves one raw child configuration whose member `key` names a module of
namespace `ns` into a live instance, or fails. -/
structure Context (W : Type) where
  logger : Logger
  loadModuleInline : String → String → RawMessage → Except String (Module W)

/-- Method `ctx.Logger()`. -/
def Context.Logger {W : Type} (ctx : Context W) : Logger := ctx.logger

/-- The struct `CombinedIPRange`. -/
structure CombinedIPRange (W : Type) where
  /-- The IP ranges to combine (struct tag:
  `json:"parts,omitempty" caddy:"namespace=http.ip_sources inline_key=source"`). -/
  PartsRaw : List RawMessage
  /-- The provisioned IP range sources to combine. -/
  parts : List (IPRangeSource W)
  /-- The context; `none` in the zero value. -/
  ctx : Option (Context W)
  /-- The logger; `none` in the zero value. -/
  logger : Option Logger

/-- The zero value `CombinedIPRange{}`. -/
def CombinedIPRange.zero (W : Type) : CombinedIPRange W :=
  { PartsRaw := [], parts := [], ctx := none, logger := none }

/-- Modelled from the spec: the host's loop over a `[]json.RawMessage` field,
which is not under src/.  Each raw configuration is resolved in order; the
first failure aborts with the position prepended to the message. -/
def loadAll {W : Type} (ctx : Context W) (key ns : String) :
    Nat → List RawMessage → Except String (List (Module W))
  | _, [] => .ok []
  | i, raw :: rest =>
    match ctx.loadModuleInline key ns raw with
    | .error err => .error ("position " ++ toString i ++ ": " ++ err)
    | .ok val =>
      match loadAll ctx key ns (i + 1) rest with
      | .error err => .error err
      | .ok vals => .ok (val :: vals)

/-- Modelled from the spec: `ctx.LoadModule(c, "PartsRaw")`, which is not under
src/.  The field's struct tag gives the namespace `http.ip_sources` and the
inline key `source`.  On success the host clears the raw field (it is done
with the raw bytes) and returns the loaded instances; on failure the struct is
left as it was. -/
def Context.LoadModule {W : Type} (ctx : Context W) (c : CombinedIPRange W) :
    CombinedIPRange W × Except String (List (Module W)) :=
  match loadAll ctx "source" "http.ip_sources" 0 c.PartsRaw with
  | .error err => (c, .error err)
  | .ok vals => ({ c with PartsRaw := [] }, .ok vals)

/-! ## Provision -/

/-- What `%T` prints for a nil interface value. -/
def nilTypeName : String := "<nil>"

/-- Outcome of `Provision`: the receiver afterwards, the records written to the
logger, and the returned error. -/
structure ProvisionResult (W : Type) where
  c : CombinedIPRange W
  logs : List LogEntry
  err : Option String

/-- The loop `for _, val := range rawParts.([]any)` of `Provision`.  When the
type assertion fails, `part` is the nil interface value, and that is what the
message formats with `%T`. -/
def provisionParts {W : Type} (c : CombinedIPRange W) :
    List (Module W) → CombinedIPRange W × Option String
  | [] => (c, none)
  | val :: rest =>
    match val.asIPRangeSource with
    | none => (c, some (nilTypeName ++ " is not an IP range source"))
    | some part => provisionParts { c with parts := c.parts ++ [part] } rest

/-- Method `(*CombinedIPRange).Provision`. -/
def Provision {W : Type} (ctx : Context W) (c : CombinedIPRange W) : ProvisionResult W :=
  -- Initialize internal fields.
  let c := { c with ctx := some ctx, logger := some ctx.Logger }
  -- Sanity check.
  let logs : List LogEntry :=
    if c.PartsRaw.length = 0 then
      [{ level := "warn", msg := "combine ip range: no sub-ranges provided" }]
    else []
  -- Provision parts.
  match ctx.LoadModule c with
  | (c, .error err) => { c := c, logs := logs, err := some ("loading sub-range modules: " ++ err) }
  | (c, .ok rawParts) =>
    let r := provisionParts c rawParts
    { c := r.1, logs := logs, err := r.2 }

/-! ## GetIPRanges -/

/-- State of one `GetIPRanges` call: the receiver, the named result `result`,
and the children's world. -/
structure QueryState (W : Type) where
  c : CombinedIPRange W
  result : List Prefix
  world : W

/-- Body of the loop of `GetIPRanges`:
`result = append(result, part.GetIPRanges(r)...)`. -/
def queryStep {W : Type} (r : Option Request) (s : QueryState W) (part : IPRangeSource W) :
    QueryState W :=
  let out := part.GetIPRanges r s.world
  { s with result := s.result ++ out.1, world := out.2 }

/-- Method `(*CombinedIPRange).GetIPRanges`: the loop runs over `c.parts`,
starting from the nil result. -/
def GetIPRanges {W : Type} (c : CombinedIPRange W) (r : Option Request) (w : W) :
    QueryState W :=
  c.parts.foldl (queryStep r) { c := c, result := [], world := w }

/-- The component seen through the interface it implements
(`var _ caddyhttp.IPRangeSource = (*CombinedIPRange)(nil)`). -/
def CombinedIPRange.toIPRangeSource {W : Type} (c : CombinedIPRange W) : IPRangeSource W :=
  { GetIPRanges := fun r w => ((GetIPRanges c r w).result, (GetIPRanges c r w).world) }

/-- The outputs of the children for one request, child by child, each child
being asked in the world its predecessors left. -/
def childOutputs {W : Type} (r : Option Request) : List (IPRangeSource W) → W → List (List Prefix)
  | [], _ => []
  | p :: ps, w => (p.GetIPRanges r w).1 :: childOutputs r ps (p.GetIPRanges r w).2

/-- The world after every child of the list has been asked once, in order. -/
def childEffects {W : Type} (r : Option Request) : List (IPRangeSource W) → W → W
  | [], w => w
  | p :: ps, w => childEffects r ps (p.GetIPRanges r w).2

/-! ## The Caddyfile dispenser -/

/-- Modelled from the spec: a token of the host's text-configuration lexer,
which is not under src/: its file, its line and its text. -/
structure Token where
  File : String
  Line : Nat
  Text : String
  deriving DecidableEq, Repr

/-- The zero value `Token{}`. -/
def Token.zero : Token := { File := "", Line := 0, Text := "" }

/-- Number of line breaks inside the token's text. -/
def Token.NumLineBreaks (t : Token) : Nat := t.Text.data.count (Char.ofNat 10)

/-- Modelled from the spec: the host's test whether the second of two
successive tokens starts on a later line than the first ends on (tokens of
different files never share a line). -/
def isNextOnNewLine (t1 t2 : Token) : Bool :=
  if t1.File ≠ t2.File then true
  else decide (t1.Line + t1.NumLineBreaks < t2.Line)

/-- Modelled from the spec: the host's text-configuration dispenser
(`caddyfile.Dispenser`), which is not under src/: the tokens, a cursor that
starts before the first token, and the current block nesting. -/
structure Dispenser where
  tokens : List Token
  cursor : Int
  nesting : Int
  deriving DecidableEq, Repr

/-- Function `caddyfile.NewDispenser`: the cursor starts before the first token. -/
def NewDispenser (tokens : List Token) : Dispenser :=
  { tokens := tokens, cursor := -1, nesting := 0 }

namespace Dispenser

/-- The token under the cursor, or the zero token when the cursor is outside. -/
def Token (d : Dispenser) : Combine.Token :=
  if d.cursor < 0 ∨ d.cursor ≥ d.tokens.length then Combine.Token.zero
  else d.tokens.getD d.cursor.toNat Combine.Token.zero

/-- Text of the token under the cursor, or the empty string. -/
def Val (d : Dispenser) : String := d.Token.Text

/-- Current nesting level. -/
def Nesting (d : Dispenser) : Int := d.nesting

/-- Advance to the next token if there is one. -/
def Next (d : Dispenser) : Bool × Dispenser :=
  if d.cursor < (d.tokens.length : Int) - 1 then (true, { d with cursor := d.cursor + 1 })
  else (false, d)

/-- Step back one token unless the cursor is before the first. -/
def Prev (d : Dispenser) : Bool × Dispenser :=
  if d.cursor > -1 then (true, { d with cursor := d.cursor - 1 })
  else (false, d)

/-- Advance if the next token is on the same line as the current one. -/
def nextOnSameLine (d : Dispenser) : Bool × Dispenser :=
  if d.cursor < 0 then (true, { d with cursor := d.cursor + 1 })
  else if d.cursor ≥ (d.tokens.length : Int) - 1 then (false, d)
  else
    let curr := d.tokens.getD d.cursor.toNat Combine.Token.zero
    let next := d.tokens.getD (d.cursor + 1).toNat Combine.Token.zero
    if !isNextOnNewLine curr next then (true, { d with cursor := d.cursor + 1 })
    else (false, d)

/-- Advance to the next argument: the next token of the same line, unless it
opens a block. -/
def NextArg (d : Dispenser) : Bool × Dispenser :=
  let r := d.nextOnSameLine
  if !r.1 then (false, r.2)
  else if r.2.Val = "\x7b" then (false, { r.2 with cursor := r.2.cursor - 1 })
  else (true, r.2)

/-- The nesting update of `NextBlock` inside a block:
`if Val == "\x7d" && !nextOnSameLine() { nesting-- }
 else if Val == "\x7b" && !nextOnSameLine() { nesting++ }`;
both calls of `nextOnSameLine` may move the cursor. -/
def blockStep (d : Dispenser) : Dispenser :=
  let first : Bool × Dispenser :=
    if d.Val = "\x7d" then
      let r := d.nextOnSameLine
      (!r.1, r.2)
    else (false, d)
  if first.1 then { first.2 with nesting := first.2.nesting - 1 }
  else
    let d := first.2
    if d.Val = "\x7b" then
      let r := d.nextOnSameLine
      if !r.1 then { r.2 with nesting := r.2.nesting + 1 } else r.2
    else d

/-- Advance inside a block, or enter the block that opens on the current
line.  Answers whether there is another token of the block to handle. -/
def NextBlock (initialNestingLevel : Int) (d : Dispenser) : Bool × Dispenser :=
  if d.nesting > initialNestingLevel then
    let r := d.Next
    if !r.1 then (false, r.2)
    else
      let d := blockStep r.2
      (decide (d.nesting > initialNestingLevel), d)
  else
    let r := d.nextOnSameLine
    if !r.1 then (false, r.2)
    else if r.2.Val ≠ "\x7b" then (false, { r.2 with cursor := r.2.cursor - 1 })
    else
      let d := r.2.Next.2
      if d.Val = "\x7d" then (false, d)
      else (true, { d with nesting := d.nesting + 1 })

/-- The loop `for d.NextArg() { tkns = append(tkns, d.Token()) }`. -/
def segmentArgs : Nat → List Combine.Token → Dispenser → Option (List Combine.Token × Dispenser)
  | 0, _, _ => none
  | fuel + 1, tkns, d =>
    let r := d.NextArg
    if r.1 then segmentArgs fuel (tkns ++ [r.2.Token]) r.2
    else some (tkns, r.2)

/-- The loop `for nesting := d.Nesting(); d.NextBlock(nesting); { ... }` of
`NextSegment`; the flag says whether the block has been opened. -/
def segmentBlock : Nat → Int → Bool → List Combine.Token → Dispenser →
    Option (Bool × List Combine.Token × Dispenser)
  | 0, _, _, _, _ => none
  | fuel + 1, nesting, openedBlock, tkns, d =>
    let r := d.NextBlock nesting
    if r.1 then
      if !openedBlock then
        let d1 := r.2.Prev.2
        let tkns := tkns ++ [d1.Token]
        let d2 := d1.Next.2
        segmentBlock fuel nesting true (tkns ++ [d2.Token]) d2
      else segmentBlock fuel nesting openedBlock (tkns ++ [r.2.Token]) r.2
    else some (openedBlock, tkns, r.2)

/-- The tokens of the directive under the cursor: its name, its arguments and,
if it opens one, its block with the braces.  `none` only if a loop did not end
within `tokens.length + 2` rounds. -/
def NextSegment (d : Dispenser) : Option (List Combine.Token × Dispenser) :=
  match segmentArgs (d.tokens.length + 2) [d.Token] d with
  | none => none
  | some (tkns, d) =>
    match segmentBlock (d.tokens.length + 2) d.Nesting false tkns d with
    | none => none
    | some (openedBlock, tkns, d) =>
      if openedBlock then some (tkns ++ [d.Token], d) else some (tkns, d)

/-- A parse error at the cursor, `d.Err(msg)`. -/
def Err (d : Dispenser) (msg : String) : String :=
  msg ++ ", at " ++ d.Token.File ++ ":" ++ toString d.Token.Line

end Dispenser

/-! ## UnmarshalCaddyfile -/

/-- Modelled from the spec: an entry of the host's module registry, which is
not under src/: the module's ID and what creating a fresh instance and running
its own text-configuration parser on a dispenser gives, the configured
instance or a parse error. -/
structure ModuleInfo (W : Type) where
  ID : String
  UnmarshalCaddyfile : Dispenser → Except String (Module W)

/-- The host's module registry, `caddy.GetModule`: `none` for an unknown ID. -/
abbrev Registry (W : Type) := String → Option (ModuleInfo W)

/-- Method `ModuleID.Name()`: the last label of a dotted module ID. -/
def ModuleID.Name (id : String) : String :=
  String.mk (id.data.reverse.takeWhile (fun ch => ch ≠ Char.ofNat 46)).reverse

/-- Modelled from the spec: `caddyfile.UnmarshalModule`, which is not under
src/.  It fails if the directive names an unknown module; otherwise it hands
the tokens of the directive to the module's own parser on a dispenser of their
own and returns what that parser returns.  `none` only if taking the segment
ran out of rounds. -/
def UnmarshalModule {W : Type} (reg : Registry W) (d : Dispenser) (moduleID : String) :
    Option (Dispenser × Except String (Module W)) :=
  match reg moduleID with
  | none => some (d, .error (d.Err ("getting module named " ++ moduleID ++ ": unknown module")))
  | some info =>
    match d.NextSegment with
    | none => none
    | some (seg, d) => some (d, info.UnmarshalCaddyfile (NewDispenser seg))

/-- Modelled from the spec: `caddyconfig.JSONModuleObject(val, fieldName,
fieldVal, nil)`, which is not under src/: the JSON object encoding of the
instance with the member `fieldName` set to the string `fieldVal`.  An
instance that does not encode to an object gives the nil message. -/
def JSONModuleObject {W : Type} (val : Module W) (fieldName fieldVal : String) : RawMessage :=
  match val.json with
  | .object members =>
    .object (members.filter (fun kv => kv.1 ≠ fieldName) ++ [(fieldName, .string fieldVal)])
  | _ => .null

/-- Outcome of `UnmarshalCaddyfile`: the receiver and the dispenser afterwards
and the returned error. -/
structure UnmarshalResult (W : Type) where
  c : CombinedIPRange W
  d : Dispenser
  err : Option String

/-- The loop `for nesting := d.Nesting(); d.NextBlock(nesting); { ... }` of
`UnmarshalCaddyfile`.  `none` only if the rounds ran out. -/
def unmarshalLoop {W : Type} (reg : Registry W) :
    Nat → Int → CombinedIPRange W → Dispenser → Option (UnmarshalResult W)
  | 0, _, _, _ => none
  | fuel + 1, nesting, c, d =>
    let r := d.NextBlock nesting
    if !r.1 then some { c := c, d := r.2, err := none }
    else
      let d := r.2
      let modID := "http.ip_sources." ++ d.Val
      match UnmarshalModule reg d modID with
      | none => none
      | some (d, .error err) => some { c := c, d := d, err := some err }
      | some (d, .ok mod) =>
        match mod.asIPRangeSource with
        | none =>
          some { c := c, d := d,
                 err := some ("module " ++ modID ++ " (" ++ mod.goType ++
                              ") is not an IP range source") }
        | some _ =>
          let jsonSource := JSONModuleObject mod "source" (ModuleID.Name mod.ID)
          unmarshalLoop reg fuel nesting { c with PartsRaw := c.PartsRaw ++ [jsonSource] } d

/-- Method `(*CombinedIPRange).UnmarshalCaddyfile`.  The error built by
`d.Err("expected 'combine'")` is not returned by the Go code; execution goes
on with the next statement.  The loop gets `tokens.length + 2` rounds. -/
def UnmarshalCaddyfile {W : Type} (reg : Registry W) (c : CombinedIPRange W) (d : Dispenser) :
    Option (UnmarshalResult W) :=
  let r := d.Next
  let d := r.2
  let _unused : Option String :=
    if !r.1 || d.Val ≠ "combine" then some (d.Err "expected \x27combine\x27") else none
  let a := d.NextArg
  let d := a.2
  if a.1 then some { c := c, d := d, err := some (d.Err "unexpected argument") }
  else unmarshalLoop reg (d.tokens.length + 2) d.Nesting c d

/-! ## The host's `static` range source, used in examples -/

/-- The host's `PrivateRangesCIDR()`. -/
def PrivateRangesCIDR : List String :=
  ["192.168.0.0/16", "172.16.0.0/12", "10.0.0.0/8", "127.0.0.1/8", "fd00::/8", "::1"]

/-- An unprovisioned instance of the host's `caddyhttp.StaticIPRange` with the
given `Ranges`; its parsed ranges are still empty. -/
def StaticIPRange (W : Type) (ranges : List String) : Module W :=
  { goType := "*caddyhttp.StaticIPRange",
    ID := "http.ip_sources.static",
    json := .object (if ranges = [] then []
                     else [("ranges", .array (ranges.map JSONValue.string))]),
    asIPRangeSource := some { GetIPRanges := fun _ w => ([], w) } }

/-- The loop `for d.NextArg() { ... }` of the `static` parser. -/
def staticArgs : Nat → List String → Dispenser → List String
  | 0, ranges, _ => ranges
  | fuel + 1, ranges, d =>
    let r := d.NextArg
    if r.1 then
      if r.2.Val = "private_ranges" then staticArgs fuel (ranges ++ PrivateRangesCIDR) r.2
      else staticArgs fuel (ranges ++ [r.2.Val]) r.2
    else ranges

/-- The `static` module's own parser. -/
def StaticIPRange.UnmarshalCaddyfile (W : Type) (d : Dispenser) : Except String (Module W) :=
  let r := d.Next
  if !r.1 then .ok (StaticIPRange W [])
  else .ok (StaticIPRange W (staticArgs (d.tokens.length + 1) [] r.2))

/-- A registry that knows only `http.ip_sources.static`. -/
def staticRegistry (W : Type) : Registry W := fun id =>
  if id = "http.ip_sources.static" then
    some { ID := "http.ip_sources.static",
           UnmarshalCaddyfile := StaticIPRange.UnmarshalCaddyfile W }
  else none

/-- A source whose answer is fixed and which has no effect, such as a
provisioned `static` source. -/
def constSource (W : Type) (ps : List Prefix) : IPRangeSource W :=
  { GetIPRanges := fun _ w => (ps, w) }

/-! ## Examples of hosts -/

/-- The two prefixes of the repository's tests. -/
def prefixA : Prefix := { addr := .v4 1 1 1 1, bits := 24 }

/-- The second prefix of the tests, `2001:db8::/32`. -/
def prefixB : Prefix := { addr := .v6 [0x2001, 0xdb8, 0, 0, 0, 0, 0, 0], bits := 32 }

/-- A module registered under `http.ip_sources` that has no `GetIPRanges`
method. -/
def bogusModule (W : Type) : Module W :=
  { goType := "*example.Bogus",
    ID := "http.ip_sources.bogus",
    json := .object [],
    asIPRangeSource := none }

/-- A provisioned module whose `GetIPRanges` answers with the given prefixes. -/
def fixedModule (W : Type) (ps : List Prefix) : Module W :=
  { goType := "*example.Fixed",
    ID := "http.ip_sources.fixed",
    json := .object [],
    asIPRangeSource := some (constSource W ps) }

/-- An example host.  A raw configuration is resolved by its number: `1` and
`2` give sources answering with the first and the second test prefix, `3`
gives a module without the capability, anything else is not resolved. -/
def exampleContext (W : Type) : Context W :=
  { logger := { name := "http.ip_sources.combine" },
    loadModuleInline := fun _ _ raw =>
      match raw with
      | .number 1 => .ok (fixedModule W [prefixA])
      | .number 2 => .ok (fixedModule W [prefixB])
      | .number 3 => .ok (bogusModule W)
      | _ => .error "unknown module" }

/-- A component as decoded from JSON: the given raw configurations and nothing
else. -/
def exampleComponent (W : Type) (raws : List RawMessage) : CombinedIPRange W :=
  { CombinedIPRange.zero W with PartsRaw := raws }

/-- A token of the test file. -/
def tok (line : Nat) (text : String) : Token :=
  { File := "Testfile", Line := line, Text := text }

/-! ## The directives of a block -/

/-- The segments that the iteration `for d.NextBlock(nesting) { d.NextSegment() }`
cuts the block under the cursor into: the nested directives of the block, each
with its name, its arguments and its own block.  `none` only if the rounds ran
out. -/
def blockDirectives : Nat → Int → Dispenser → Option (List (List Token))
  | 0, _, _ => none
  | fuel + 1, nesting, d =>
    let r := d.NextBlock nesting
    if !r.1 then some []
    else
      match r.2.NextSegment with
      | none => none
      | some (seg, d) =>
        match blockDirectives fuel nesting d with
        | none => none
        | some segs => some (seg :: segs)

/-- The nested directives of a text configuration: those of the block that
opens behind its first token. -/
def nestedDirectives (tokens : List Token) : Option (List (List Token)) :=
  blockDirectives (tokens.length + 2) 0 { tokens := tokens, cursor := 0, nesting := 0 }

/-- An argument follows the first token: there is a second token, it is on the
line of the first, and it does not open a block. -/
def argumentFollows : List Token → Bool
  | t0 :: t1 :: _ => !isNextOnNewLine t0 t1 && decide (t1.Text ≠ "\x7b")
  | _ => false

/-- The module ID that a directive names. -/
def directiveModuleID (seg : List Token) : String :=
  "http.ip_sources." ++ (seg.headD Token.zero).Text

/-- The directive names a module that the registry does not know. -/
def namesUnknownModule {W : Type} (reg : Registry W) (seg : List Token) : Prop :=
  reg (directiveModuleID seg) = none

/-- The parser of the module that the directive names fails on the directive. -/
def ownParserFails {W : Type} (reg : Registry W) (seg : List Token) : Prop :=
  ∃ info err, reg (directiveModuleID seg) = some info ∧
    info.UnmarshalCaddyfile (NewDispenser seg) = .error err

/-- The module that the directive names parses the directive, and the instance
is not an IP range source. -/
def lacksCapability {W : Type} (reg : Registry W) (seg : List Token) : Prop :=
  ∃ info mod, reg (directiveModuleID seg) = some info ∧
    info.UnmarshalCaddyfile (NewDispenser seg) = .ok mod ∧ mod.asIPRangeSource = none

/-- The directive names a registered module whose own parser produces `mod`
for it, an IP range source. -/
def parsesTo {W : Type} (reg : Registry W) (seg : List Token) (mod : Module W) : Prop :=
  ∃ info, reg (directiveModuleID seg) = some info ∧
    info.UnmarshalCaddyfile (NewDispenser seg) = .ok mod ∧ mod.asIPRangeSource.isSome

/-- The tokens of `combine { static 1.1.1.1/24 ; static 2001:db8::/32 }` as
laid out in `TestUnmarshal`. -/
def testUnmarshalTokens : List Token :=
  [tok 1 "combine", tok 1 "\x7b", tok 2 "static", tok 2 "1.1.1.1/24",
   tok 3 "static", tok 3 "2001:db8::/32", tok 4 "\x7d"]

/-! ## Blocks written one directive a line -/

/-- Successive tokens of the list stand on one line. -/
def onOneLine : List Token → Bool
  | t1 :: t2 :: rest => !isNextOnNewLine t1 t2 && onOneLine (t2 :: rest)
  | _ => true

/-- A directive without a block of its own: a name, then arguments on the
same line, none of them a brace. -/
def plainDirective (line : List Token) : Bool :=
  !line.isEmpty && line.all (fun t => decide (t.Text ≠ "\x7b") && decide (t.Text ≠ "\x7d")) &&
    onOneLine line

/-- Behind the token `last`, the given directives follow, each one plain and
begun on a new line, and behind them, on a new line, the token `close`. -/
def linesThenClose (close : Token) : Token → List (List Token) → Bool
  | last, [] => isNextOnNewLine last close
  | last, line :: rest =>
    plainDirective line && isNextOnNewLine last (line.headD Token.zero) &&
      linesThenClose close (line.getLastD Token.zero) rest

/-- The layout `kw {`, then plain directives one a line, then `}` on a line
of its own (or, without directives, anywhere behind the opening brace). -/
def plainBlock (kw brace close : Token) (lines : List (List Token)) : Bool :=
  decide (brace.Text = "\x7b") && !isNextOnNewLine kw brace && decide (close.Text = "\x7d") &&
    match lines with
    | [] => true
    | line :: rest => plainDirective line && linesThenClose close (line.getLastD Token.zero) rest

/-! ## Lemmas on the query loop -/

theorem foldl_queryStep {W : Type} (r : Option Request) (ps : List (IPRangeSource W))
    (s : QueryState W) :
    ps.foldl (queryStep r) s =
      { c := s.c, result := s.result ++ (childOutputs r ps s.world).flatten,
        world := childEffects r ps s.world } := by
  induction ps generalizing s with
  | nil => simp [childOutputs, childEffects]
  | cons p ps ih =>
    rw [List.foldl_cons, ih]
    simp [queryStep, childOutputs, childEffects, List.append_assoc]

theorem getIPRanges_eq {W : Type} (c : CombinedIPRange W) (r : Option Request) (w : W) :
    GetIPRanges c r w =
      { c := c, result := (childOutputs r c.parts w).flatten, world := childEffects r c.parts w } := by
  unfold GetIPRanges
  rw [foldl_queryStep]
  simp

theorem childOutputs_append {W : Type} (r : Option Request) (ps qs : List (IPRangeSource W)) (w : W) :
    childOutputs r (ps ++ qs) w = childOutputs r ps w ++ childOutputs r qs (childEffects r ps w) := by
  induction ps generalizing w with
  | nil => simp [childOutputs, childEffects]
  | cons p ps ih => simp [childOutputs, childEffects, ih]

theorem childEffects_append {W : Type} (r : Option Request) (ps qs : List (IPRangeSource W)) (w : W) :
    childEffects r (ps ++ qs) w = childEffects r qs (childEffects r ps w) := by
  induction ps generalizing w with
  | nil => simp [childEffects]
  | cons p ps ih => simp [childEffects, ih]

/-! ## Lemmas on Provision -/

theorem loadModule_snd {W : Type} (ctx : Context W) (c : CombinedIPRange W) :
    (ctx.LoadModule c).2 = loadAll ctx "source" "http.ip_sources" 0 c.PartsRaw := by
  unfold Context.LoadModule
  split <;> simp_all

theorem loadModule_parts {W : Type} (ctx : Context W) (c : CombinedIPRange W) :
    (ctx.LoadModule c).1.parts = c.parts := by
  unfold Context.LoadModule
  split <;> rfl

theorem provision_of_load_error {W : Type} (ctx : Context W) (c : CombinedIPRange W) (e : String)
    (h : (ctx.LoadModule c).2 = .error e) :
    (Provision ctx c).err = some ("loading sub-range modules: " ++ e) ∧
      (Provision ctx c).c.parts = c.parts := by
  rw [loadModule_snd] at h
  simp [Provision, Context.LoadModule, h]

theorem provision_of_load_ok {W : Type} (ctx : Context W) (c : CombinedIPRange W)
    (ms : List (Module W)) (h : (ctx.LoadModule c).2 = .ok ms) :
    (Provision ctx c).err =
        (provisionParts { c with PartsRaw := [], ctx := some ctx, logger := some ctx.Logger } ms).2 ∧
      (Provision ctx c).c =
        (provisionParts { c with PartsRaw := [], ctx := some ctx, logger := some ctx.Logger } ms).1 := by
  rw [loadModule_snd] at h
  simp [Provision, Context.LoadModule, h]

theorem provisionParts_all {W : Type} (ms : List (Module W)) (c : CombinedIPRange W)
    (h : ∀ m ∈ ms, m.asIPRangeSource.isSome) :
    (provisionParts c ms).2 = none ∧
      (provisionParts c ms).1.parts.map some = c.parts.map some ++ ms.map (·.asIPRangeSource) ∧
      (provisionParts c ms).1.parts = c.parts ++ ms.filterMap (·.asIPRangeSource) := by
  induction ms generalizing c with
  | nil => simp [provisionParts]
  | cons m ms ih =>
    have hm : m.asIPRangeSource.isSome := h m (List.mem_cons_self _ _)
    obtain ⟨p, hp⟩ := Option.isSome_iff_exists.mp hm
    have ih2 := ih { c with parts := c.parts ++ [p] } (fun x hx => h x (List.mem_cons_of_mem _ hx))
    simp only [provisionParts, hp]
    refine ⟨ih2.1, ?_, ?_⟩
    · rw [ih2.2.1]; simp [hp]
    · rw [ih2.2.2]; simp [hp]

theorem provisionParts_bad {W : Type} (pre : List (Module W)) (bad : Module W)
    (post : List (Module W)) (c : CombinedIPRange W)
    (h : ∀ m ∈ pre, m.asIPRangeSource.isSome) (hbad : bad.asIPRangeSource = none) :
    (provisionParts c (pre ++ bad :: post)).2 = some (nilTypeName ++ " is not an IP range source") ∧
      (provisionParts c (pre ++ bad :: post)).1.parts.map some =
        c.parts.map some ++ pre.map (·.asIPRangeSource) ∧
      (provisionParts c (pre ++ bad :: post)).1.parts = c.parts ++ pre.filterMap (·.asIPRangeSource) := by
  induction pre generalizing c with
  | nil => simp [provisionParts, hbad]
  | cons m ms ih =>
    have hm : m.asIPRangeSource.isSome := h m (List.mem_cons_self _ _)
    obtain ⟨p, hp⟩ := Option.isSome_iff_exists.mp hm
    have ih2 := ih { c with parts := c.parts ++ [p] } (fun x hx => h x (List.mem_cons_of_mem _ hx))
    have e : (m :: ms) ++ bad :: post = m :: (ms ++ bad :: post) := rfl
    rw [e]
    simp only [provisionParts, hp]
    refine ⟨ih2.1, ?_, ?_⟩
    · rw [ih2.2.1]; simp [hp]
    · rw [ih2.2.2]; simp [hp]

theorem exists_first_bad {W : Type} (ms : List (Module W))
    (h : ¬ ∀ m ∈ ms, m.asIPRangeSource.isSome) :
    ∃ pre bad post, ms = pre ++ bad :: post ∧ (∀ m ∈ pre, m.asIPRangeSource.isSome) ∧
      bad.asIPRangeSource = none := by
  induction ms with
  | nil => simp at h
  | cons m ms ih =>
    by_cases hm : m.asIPRangeSource.isSome
    · have h2 : ¬ ∀ x ∈ ms, x.asIPRangeSource.isSome := by
        intro hall
        apply h
        intro x hx
        rcases List.mem_cons.mp hx with rfl | hx
        · exact hm
        · exact hall x hx
      obtain ⟨pre, bad, post, he, hpre, hbad⟩ := ih h2
      refine ⟨m :: pre, bad, post, by simp [he], ?_, hbad⟩
      intro x hx
      rcases List.mem_cons.mp hx with rfl | hx
      · exact hm
      · exact hpre x hx
    · refine ⟨[], m, ms, rfl, by simp, ?_⟩
      simpa using hm

/-! ## Lemmas on the dispenser: every loop ends -/

namespace Dispenser

theorem next_spec (d : Dispenser) :
    d.Next.2.tokens = d.tokens ∧ d.Next.2.nesting = d.nesting ∧
    (d.Next.1 = true → d.Next.2.cursor = d.cursor + 1 ∧ d.cursor < (d.tokens.length : Int) - 1) ∧
    (d.Next.1 = false → d.Next.2 = d) := by
  unfold Next
  split <;> simp_all

theorem nextOnSameLine_spec (d : Dispenser) :
    d.nextOnSameLine.2.tokens = d.tokens ∧ d.nextOnSameLine.2.nesting = d.nesting ∧
    (d.nextOnSameLine.1 = true → d.nextOnSameLine.2.cursor = d.cursor + 1 ∧
      (d.cursor < 0 ∨ d.cursor < (d.tokens.length : Int) - 1)) ∧
    (d.nextOnSameLine.1 = false → d.nextOnSameLine.2 = d) := by
  unfold nextOnSameLine
  split
  · simp_all
  · split
    · simp_all
    · dsimp only
      split
      · simp_all
        omega
      · simp_all

theorem val_ne_empty_bounds (d : Dispenser) (h : d.Val ≠ "") :
    0 ≤ d.cursor ∧ d.cursor < (d.tokens.length : Int) := by
  unfold Val Token at h
  split at h
  · exact absurd rfl h
  · omega

/-- Effect of `nextOnSameLine` from a position that holds a token. -/
theorem nextOnSameLine_adv (d : Dispenser) (h : d.Val ≠ "") :
    d.nextOnSameLine.2.tokens = d.tokens ∧ d.cursor ≤ d.nextOnSameLine.2.cursor ∧
    d.nextOnSameLine.2.cursor ≤ (d.tokens.length : Int) - 1 := by
  have hb := val_ne_empty_bounds d h
  have hs := nextOnSameLine_spec d
  cases hr : d.nextOnSameLine.1
  · rw [hs.2.2.2 hr]; exact ⟨rfl, le_rfl, by omega⟩
  · have := hs.2.2.1 hr
    exact ⟨hs.1, by omega, by omega⟩

theorem blockStep_spec (d : Dispenser) (hd : d.cursor ≤ (d.tokens.length : Int) - 1) :
    (blockStep d).tokens = d.tokens ∧ d.cursor ≤ (blockStep d).cursor ∧
    (blockStep d).cursor ≤ (d.tokens.length : Int) - 1 := by
  have key : ∀ e : Dispenser, e.tokens = d.tokens → d.cursor ≤ e.cursor →
      e.cursor ≤ (d.tokens.length : Int) - 1 →
      (if e.Val = "\x7b" then
        (if !e.nextOnSameLine.1 then { e.nextOnSameLine.2 with nesting := e.nextOnSameLine.2.nesting + 1 }
         else e.nextOnSameLine.2)
       else e).tokens = d.tokens ∧
      d.cursor ≤ (if e.Val = "\x7b" then
        (if !e.nextOnSameLine.1 then { e.nextOnSameLine.2 with nesting := e.nextOnSameLine.2.nesting + 1 }
         else e.nextOnSameLine.2)
       else e).cursor ∧
      (if e.Val = "\x7b" then
        (if !e.nextOnSameLine.1 then { e.nextOnSameLine.2 with nesting := e.nextOnSameLine.2.nesting + 1 }
         else e.nextOnSameLine.2)
       else e).cursor ≤ (d.tokens.length : Int) - 1 := by
    intro e he1 he2 he3
    by_cases hv : e.Val = "\x7b"
    · have hne : e.Val ≠ "" := by rw [hv]; decide
      have ha := nextOnSameLine_adv e hne
      rw [he1] at ha
      simp only [hv, if_true]
      split
      · exact ⟨ha.1, by simpa using le_trans he2 ha.2.1, by simpa using ha.2.2⟩
      · exact ⟨ha.1, le_trans he2 ha.2.1, ha.2.2⟩
    · simp only [hv, if_false]
      exact ⟨he1, he2, he3⟩
  unfold blockStep
  by_cases hv : d.Val = "\x7d"
  · have hne : d.Val ≠ "" := by rw [hv]; decide
    have ha := nextOnSameLine_adv d hne
    simp only [hv, if_true]
    cases hr : d.nextOnSameLine.1
    · simp only [Bool.not_false, if_true]
      exact ⟨ha.1, ha.2.1, ha.2.2⟩
    · simp only [Bool.not_true, Bool.false_eq_true, if_false]
      exact key _ ha.1 ha.2.1 ha.2.2
  · simp only [hv, if_false, Bool.false_eq_true]
    exact key d rfl le_rfl hd


theorem nextBlock_spec (n : Int) (d : Dispenser) :
    (d.NextBlock n).2.tokens = d.tokens ∧
    ((d.NextBlock n).1 = true →
      d.cursor + 1 ≤ (d.NextBlock n).2.cursor ∧
      (d.NextBlock n).2.cursor ≤ (d.tokens.length : Int) - 1) ∧
    ((d.NextBlock n).1 = false →
      d.cursor ≤ (d.NextBlock n).2.cursor ∧
      (d.cursor ≤ (d.tokens.length : Int) → (d.NextBlock n).2.cursor ≤ (d.tokens.length : Int))) := by
  unfold NextBlock
  by_cases hn : d.nesting > n
  · simp only [hn, if_true]
    have hs := next_spec d
    cases hr : d.Next.1
    · simp only [Bool.not_false, if_true]
      rw [hs.2.2.2 hr]
      exact ⟨rfl, by simp, by simp⟩
    · simp only [Bool.not_true, Bool.false_eq_true, if_false]
      have h1 := hs.2.2.1 hr
      have hb := blockStep_spec d.Next.2 (by rw [hs.1]; omega)
      rw [hs.1] at hb
      refine ⟨hb.1, ?_, ?_⟩
      · intro _; exact ⟨by omega, hb.2.2⟩
      · intro _; exact ⟨by omega, fun _ => by omega⟩
  · simp only [hn, if_false]
    have hs := nextOnSameLine_spec d
    cases hr : d.nextOnSameLine.1
    · simp only [Bool.not_false, if_true]
      rw [hs.2.2.2 hr]
      exact ⟨rfl, by simp, by simp⟩
    · simp only [Bool.not_true, Bool.false_eq_true, if_false]
      have h1 := hs.2.2.1 hr
      by_cases hv : d.nextOnSameLine.2.Val = "\x7b"
      · have hne : d.nextOnSameLine.2.Val ≠ "" := by rw [hv]; decide
        have hb := val_ne_empty_bounds _ hne
        rw [hs.1] at hb
        have hx := next_spec d.nextOnSameLine.2
        rw [hs.1] at hx
        have hc : d.cursor + 1 ≤ d.nextOnSameLine.2.Next.2.cursor ∧
            d.nextOnSameLine.2.Next.2.cursor ≤ (d.tokens.length : Int) - 1 := by
          cases hr2 : d.nextOnSameLine.2.Next.1
          · rw [hx.2.2.2 hr2]; omega
          · have := hx.2.2.1 hr2; omega
        simp only [hv, ne_eq, not_true_eq_false, if_false]
        split
        · exact ⟨hx.1, by simp, fun _ => ⟨by dsimp only; omega, fun _ => by dsimp only; omega⟩⟩
        · exact ⟨hx.1, fun _ => hc, by simp⟩
      · simp only [ne_eq, hv, not_false_eq_true, if_true]
        exact ⟨hs.1, by simp, fun _ => ⟨by simp [h1.1], fun h => by simp [h1.1]; exact h⟩⟩

theorem nextArg_spec (d : Dispenser) :
    d.NextArg.2.tokens = d.tokens ∧ d.NextArg.2.nesting = d.nesting ∧
    (d.NextArg.1 = true → d.NextArg.2.cursor = d.cursor + 1 ∧
      (d.cursor < 0 ∨ d.cursor < (d.tokens.length : Int) - 1)) ∧
    (d.NextArg.1 = false → d.NextArg.2.cursor = d.cursor) := by
  have h := nextOnSameLine_spec d
  unfold NextArg
  cases hb : d.nextOnSameLine.1
  · simp [hb] at h ⊢
    simp [h.2.2]
  · simp only [hb, true_implies, Bool.true_eq_false, false_implies] at h
    dsimp only
    simp only [hb, Bool.not_true, Bool.false_eq_true, ↓reduceIte]
    split
    · simp [h.1, h.2.1, h.2.2.1.1]
    · simp [h.1, h.2.1, h.2.2.1]

theorem prev_next_id (d : Dispenser) (h0 : 0 ≤ d.cursor)
    (h1 : d.cursor ≤ (d.tokens.length : Int) - 1) : d.Prev.2.Next.2 = d := by
  have hp : d.cursor > -1 := by omega
  have hq : d.cursor - 1 < (d.tokens.length : Int) - 1 := by omega
  simp [Prev, Next, hp, hq]

theorem segmentArgs_total (fuel : Nat) (tkns : List Combine.Token) (d : Dispenser)
    (hhi : d.cursor ≤ (d.tokens.length : Int))
    (hfuel : (d.tokens.length : Int) - d.cursor < fuel) :
    ∃ out e, segmentArgs fuel tkns d = some (out, e) ∧ e.tokens = d.tokens ∧
      e.nesting = d.nesting ∧ d.cursor ≤ e.cursor ∧ e.cursor ≤ (d.tokens.length : Int) ∧
      (∃ more, out = tkns ++ more) := by
  induction fuel generalizing tkns d with
  | zero => exfalso; omega
  | succ fuel ih =>
    have hs := nextArg_spec d
    unfold segmentArgs
    cases hr : d.NextArg.1
    · simp only [hr, Bool.false_eq_true, if_false]
      exact ⟨tkns, _, rfl, hs.1, hs.2.1, by rw [hs.2.2.2 hr], by rw [hs.2.2.2 hr]; exact hhi,
        ⟨[], by simp⟩⟩
    · simp only [hr, if_true]
      have h1 := hs.2.2.1 hr
      obtain ⟨out, e, he, h2, h3, h4, h6, more, h5⟩ :=
        ih (tkns ++ [d.NextArg.2.Token]) d.NextArg.2 (by rw [hs.1]; omega)
          (by rw [hs.1]; push_cast at hfuel ⊢; omega)
      exact ⟨out, e, he, by rw [h2, hs.1], by rw [h3, hs.2.1], by omega, by rw [hs.1] at h6; exact h6,
        ⟨d.NextArg.2.Token :: more, by rw [h5]; simp⟩⟩

theorem segmentBlock_total (fuel : Nat) (n : Int) (opened : Bool) (tkns : List Combine.Token)
    (d : Dispenser) (hlo : -1 ≤ d.cursor) (hhi : d.cursor ≤ (d.tokens.length : Int))
    (hfuel : (d.tokens.length : Int) - d.cursor < fuel) :
    ∃ o out e, segmentBlock fuel n opened tkns d = some (o, out, e) ∧ e.tokens = d.tokens ∧
      d.cursor ≤ e.cursor ∧ e.cursor ≤ (d.tokens.length : Int) ∧
      (∃ more, out = tkns ++ more) := by
  induction fuel generalizing opened tkns d with
  | zero => exfalso; omega
  | succ fuel ih =>
    have hs := nextBlock_spec n d
    unfold segmentBlock
    cases hr : (d.NextBlock n).1
    · simp only [hr, Bool.false_eq_true, if_false]
      have h1 := hs.2.2 hr
      exact ⟨opened, tkns, _, rfl, hs.1, h1.1, h1.2 hhi, ⟨[], by simp⟩⟩
    · simp only [hr, if_true]
      have h1 := hs.2.1 hr
      have hid : (d.NextBlock n).2.Prev.2.Next.2 = (d.NextBlock n).2 :=
        prev_next_id _ (by omega) (by rw [hs.1]; omega)
      cases opened
      · simp only [Bool.not_false, if_true]
        rw [hid]
        obtain ⟨o, out, e, he, h2, h3, h4, more, h5⟩ :=
          ih true (tkns ++ [(d.NextBlock n).2.Prev.2.Token] ++ [(d.NextBlock n).2.Token])
            (d.NextBlock n).2 (by omega) (by rw [hs.1]; omega)
            (by rw [hs.1]; push_cast at hfuel ⊢; omega)
        rw [hs.1] at h2 h4
        exact ⟨o, out, e, he, h2, by omega, h4, ⟨_, by rw [h5, List.append_assoc, List.append_assoc]⟩⟩
      · simp only [Bool.not_true, Bool.false_eq_true, if_false]
        obtain ⟨o, out, e, he, h2, h3, h4, more, h5⟩ :=
          ih true (tkns ++ [(d.NextBlock n).2.Token])
            (d.NextBlock n).2 (by omega) (by rw [hs.1]; omega)
            (by rw [hs.1]; push_cast at hfuel ⊢; omega)
        rw [hs.1] at h2 h4
        exact ⟨o, out, e, he, h2, by omega, h4, ⟨_, by rw [h5, List.append_assoc]⟩⟩

theorem nextSegment_total (d : Dispenser) (hlo : -1 ≤ d.cursor)
    (hhi : d.cursor ≤ (d.tokens.length : Int)) :
    ∃ seg e, d.NextSegment = some (seg, e) ∧ e.tokens = d.tokens ∧ d.cursor ≤ e.cursor ∧
      e.cursor ≤ (d.tokens.length : Int) ∧ (∃ more, seg = d.Token :: more) := by
  obtain ⟨out, e, he, h2, h3, h4, h5, more, h6⟩ :=
    segmentArgs_total (d.tokens.length + 2) [d.Token] d hhi (by push_cast; omega)
  obtain ⟨o, out2, e2, he2, k2, k3, k4, more2, k6⟩ :=
    segmentBlock_total (e.tokens.length + 2) e.Nesting false out e (by omega)
      (by rw [h2]; exact h5) (by rw [h2]; push_cast; omega)
  unfold NextSegment
  simp only [he, he2]
  rw [h2] at k2 k4
  cases o
  · exact ⟨out2, e2, by simp, k2, by omega, k4, ⟨more ++ more2, by rw [k6, h6]; simp⟩⟩
  · exact ⟨out2 ++ [e2.Token], e2, by simp, k2, by omega, k4,
      ⟨more ++ more2 ++ [e2.Token], by rw [k6, h6]; simp⟩⟩

end Dispenser

/-! ## Lemmas on the directive loop -/

theorem blockDirectives_total (fuel : Nat) (n : Int) (d : Dispenser) (hlo : -1 ≤ d.cursor)
    (hhi : d.cursor ≤ (d.tokens.length : Int))
    (hfuel : (d.tokens.length : Int) - d.cursor < fuel) :
    ∃ segs, blockDirectives fuel n d = some segs := by
  induction fuel generalizing d with
  | zero => exfalso; omega
  | succ fuel ih =>
    have hs := Dispenser.nextBlock_spec n d
    unfold blockDirectives
    cases hr : (d.NextBlock n).1
    · simp [hr]
    · have h1 := hs.2.1 hr
      obtain ⟨seg, e, he, h2, h3, h4, _⟩ :=
        Dispenser.nextSegment_total (d.NextBlock n).2 (by omega) (by rw [hs.1]; omega)
      rw [hs.1] at h2 h4
      obtain ⟨segs, hsegs⟩ := ih e (by omega) (by rw [h2]; exact h4)
        (by rw [h2]; push_cast at hfuel ⊢; omega)
      simp [he, hsegs, hr]

theorem segmentArgs_prefix (fuel : Nat) (tkns : List Token) (d : Dispenser)
    (out : List Token) (e : Dispenser) (h : Dispenser.segmentArgs fuel tkns d = some (out, e)) :
    ∃ more, out = tkns ++ more := by
  induction fuel generalizing tkns d with
  | zero => simp [Dispenser.segmentArgs] at h
  | succ fuel ih =>
    unfold Dispenser.segmentArgs at h
    cases hr : d.NextArg.1
    · simp only [hr, Bool.false_eq_true, if_false, Option.some.injEq, Prod.mk.injEq] at h
      exact ⟨[], by simp [h.1]⟩
    · simp only [hr, if_true] at h
      obtain ⟨more, hm⟩ := ih _ _ h
      exact ⟨d.NextArg.2.Token :: more, by rw [hm]; simp⟩

theorem segmentBlock_prefix (fuel : Nat) (n : Int) (opened : Bool) (tkns : List Token)
    (d : Dispenser) (o : Bool) (out : List Token) (e : Dispenser)
    (h : Dispenser.segmentBlock fuel n opened tkns d = some (o, out, e)) :
    ∃ more, out = tkns ++ more := by
  induction fuel generalizing opened tkns d with
  | zero => simp [Dispenser.segmentBlock] at h
  | succ fuel ih =>
    unfold Dispenser.segmentBlock at h
    cases hr : (d.NextBlock n).1
    · simp only [hr, Bool.false_eq_true, if_false, Option.some.injEq, Prod.mk.injEq] at h
      exact ⟨[], by simp [h.2.1]⟩
    · simp only [hr, if_true] at h
      cases opened
      · simp only [Bool.not_false, if_true] at h
        obtain ⟨more, hm⟩ := ih _ _ _ h
        exact ⟨_, by rw [hm, List.append_assoc, List.append_assoc]⟩
      · simp only [Bool.not_true, Bool.false_eq_true, if_false] at h
        obtain ⟨more, hm⟩ := ih _ _ _ h
        exact ⟨_, by rw [hm, List.append_assoc]⟩

theorem nextSegment_head (d : Dispenser) (seg : List Token) (e : Dispenser)
    (h : d.NextSegment = some (seg, e)) : ∃ more, seg = d.Token :: more := by
  unfold Dispenser.NextSegment at h
  cases h1 : Dispenser.segmentArgs (d.tokens.length + 2) [d.Token] d with
  | none => simp [h1] at h
  | some p =>
    obtain ⟨out, e1⟩ := p
    obtain ⟨more1, hm1⟩ := segmentArgs_prefix _ _ _ _ _ h1
    simp only [h1] at h
    cases h2 : Dispenser.segmentBlock (e1.tokens.length + 2) e1.Nesting false out e1 with
    | none => simp [h2] at h
    | some q =>
      obtain ⟨o, out2, e2⟩ := q
      obtain ⟨more2, hm2⟩ := segmentBlock_prefix _ _ _ _ _ _ _ _ h2
      simp only [h2] at h
      cases o
      · simp only [Bool.false_eq_true, if_false, Option.some.injEq, Prod.mk.injEq] at h
        exact ⟨more1 ++ more2, by rw [← h.1, hm2, hm1]; simp⟩
      · simp only [if_true, Option.some.injEq, Prod.mk.injEq] at h
        exact ⟨more1 ++ more2 ++ [e2.Token], by rw [← h.1, hm2, hm1]; simp⟩

theorem unmarshalLoop_spec {W : Type} (reg : Registry W) (fuel : Nat) (n : Int)
    (c : CombinedIPRange W) (d : Dispenser) (segs : List (List Token))
    (hsegs : blockDirectives fuel n d = some segs) :
    ∃ res, unmarshalLoop reg fuel n c d = some res ∧ res.c.parts = c.parts ∧
      ((∃ seg ∈ segs, namesUnknownModule reg seg ∨ ownParserFails reg seg ∨
          lacksCapability reg seg) → res.err ≠ none) ∧
      (∀ mods, List.Forall₂ (parsesTo reg) segs mods →
        res.err = none ∧
        res.c.PartsRaw =
          c.PartsRaw ++ mods.map (fun m => JSONModuleObject m "source" (ModuleID.Name m.ID))) := by
  induction fuel generalizing c d segs with
  | zero => simp [blockDirectives] at hsegs
  | succ fuel ih =>
    unfold blockDirectives at hsegs
    unfold unmarshalLoop
    cases hr : (d.NextBlock n).1
    · simp only [hr, Bool.not_false, if_true, Option.some.injEq] at hsegs
      subst hsegs
      simp only [hr, Bool.not_false, if_true]
      refine ⟨_, rfl, rfl, by simp, ?_⟩
      intro mods hm
      cases hm
      simp
    · simp only [hr, Bool.not_true, Bool.false_eq_true, if_false] at hsegs
      simp only [hr, Bool.not_true, Bool.false_eq_true, if_false]
      cases hseg : (d.NextBlock n).2.NextSegment with
      | none => simp [hseg] at hsegs
      | some p =>
        obtain ⟨seg, e⟩ := p
        simp only [hseg] at hsegs
        cases hrest : blockDirectives fuel n e with
        | none => simp [hrest] at hsegs
        | some rest =>
          simp only [hrest, Option.some.injEq] at hsegs
          subst hsegs
          obtain ⟨more, hmore⟩ := nextSegment_head _ _ _ hseg
          have hid : directiveModuleID seg = "http.ip_sources." ++ (d.NextBlock n).2.Val := by
            rw [hmore]; rfl
          rw [← hid]
          unfold UnmarshalModule
          cases hreg : reg (directiveModuleID seg) with
          | none =>
            refine ⟨_, rfl, rfl, by simp, ?_⟩
            intro mods hm
            cases hm with
            | cons h1 _ =>
              obtain ⟨info, hi, _⟩ := h1
              rw [hreg] at hi
              cases hi
          | some info =>
            simp only [hseg]
            cases hparse : info.UnmarshalCaddyfile (NewDispenser seg) with
            | error err =>
              refine ⟨_, rfl, rfl, by simp, ?_⟩
              intro mods hm
              cases hm with
              | cons h1 _ =>
                obtain ⟨info2, hi, hp, _⟩ := h1
                rw [hreg] at hi
                cases hi
                rw [hparse] at hp
                cases hp
            | ok mod =>
              cases hcap : mod.asIPRangeSource with
              | none =>
                simp only [hcap]
                refine ⟨_, rfl, rfl, by simp, ?_⟩
                intro mods hm
                cases hm with
                | cons h1 _ =>
                  obtain ⟨info2, hi, hp, hc⟩ := h1
                  rw [hreg] at hi
                  cases hi
                  rw [hparse] at hp
                  cases hp
                  rw [hcap] at hc
                  cases hc
              | some src =>
                obtain ⟨res, hres, hp1, hp2, hp3⟩ :=
                  ih { c with PartsRaw := c.PartsRaw ++
                        [JSONModuleObject mod "source" (ModuleID.Name mod.ID)] } e rest hrest
                simp only [hcap]
                refine ⟨res, hres, hp1, ?_, ?_⟩
                · rintro ⟨s, hs, hbad⟩
                  rcases List.mem_cons.mp hs with rfl | hs
                  · exfalso
                    rcases hbad with hu | hf | hl
                    · rw [namesUnknownModule, hreg] at hu
                      cases hu
                    · obtain ⟨info2, err, hi, hp⟩ := hf
                      rw [hreg] at hi
                      cases hi
                      rw [hparse] at hp
                      cases hp
                    · obtain ⟨info2, mod2, hi, hp, hc⟩ := hl
                      rw [hreg] at hi
                      cases hi
                      rw [hparse] at hp
                      cases hp
                      rw [hcap] at hc
                      cases hc
                  · exact hp2 ⟨s, hs, hbad⟩
                · intro mods hm
                  cases hm with
                  | cons h1 h2 =>
                    obtain ⟨info2, hi, hp, hc⟩ := h1
                    rw [hreg] at hi
                    cases hi
                    rw [hparse] at hp
                    cases hp
                    obtain ⟨q1, q2⟩ := hp3 _ h2
                    exact ⟨q1, by rw [q2]; simp⟩

theorem nextOnSameLine_first (t0 t1 : Token) (rest : List Token) (n : Int) :
    Dispenser.nextOnSameLine { tokens := t0 :: t1 :: rest, cursor := 0, nesting := n } =
      if !isNextOnNewLine t0 t1 then (true, { tokens := t0 :: t1 :: rest, cursor := 1, nesting := n })
      else (false, { tokens := t0 :: t1 :: rest, cursor := 0, nesting := n }) := by
  have h0 : ¬ ((0 : Int) < 0) := by omega
  have hlen : ¬ ((0 : Int) ≥ ((t0 :: t1 :: rest).length : Int) - 1) := by
    simp only [List.length_cons]; push_cast; omega
  unfold Dispenser.nextOnSameLine
  simp only [h0, hlen, if_false]
  rfl

theorem nextArg_first (t0 : Token) (rest : List Token) (n : Int) :
    (Dispenser.NextArg { tokens := t0 :: rest, cursor := 0, nesting := n }).1
        = argumentFollows (t0 :: rest) ∧
    (argumentFollows (t0 :: rest) = false →
      (Dispenser.NextArg { tokens := t0 :: rest, cursor := 0, nesting := n }).2
        = { tokens := t0 :: rest, cursor := 0, nesting := n }) := by
  cases rest with
  | nil => simp [Dispenser.NextArg, Dispenser.nextOnSameLine, argumentFollows]
  | cons t1 rest =>
    unfold Dispenser.NextArg
    rw [nextOnSameLine_first]
    cases hnl : isNextOnNewLine t0 t1
    · have hval : Dispenser.Val { tokens := t0 :: t1 :: rest, cursor := 1, nesting := n } = t1.Text := by
        have hc : ¬ ((1 : Int) < 0 ∨ (1 : Int) ≥ ((t0 :: t1 :: rest).length : Int)) := by
          simp only [List.length_cons, Nat.cast_add, Nat.cast_one]; omega
        unfold Dispenser.Val Dispenser.Token
        simp only [hc, if_false]
        rfl
      by_cases hv : t1.Text = "\x7b"
      · simp [argumentFollows, hnl, hv, hval]
      · simp [argumentFollows, hnl, hv, hval]
    · simp [argumentFollows, hnl]

theorem unmarshalCaddyfile_first {W : Type} (reg : Registry W) (c : CombinedIPRange W)
    (t0 : Token) (rest : List Token) :
    (argumentFollows (t0 :: rest) = true →
      ∃ res, UnmarshalCaddyfile reg c (NewDispenser (t0 :: rest)) = some res ∧ res.err ≠ none ∧
        res.c = c) ∧
    (argumentFollows (t0 :: rest) = false →
      UnmarshalCaddyfile reg c (NewDispenser (t0 :: rest)) =
        unmarshalLoop reg ((t0 :: rest).length + 2) 0 c
          { tokens := t0 :: rest, cursor := 0, nesting := 0 }) := by
  have hnext : (NewDispenser (t0 :: rest)).Next =
      (true, { tokens := t0 :: rest, cursor := 0, nesting := 0 }) := by
    simp [NewDispenser, Dispenser.Next]
    omega
  have ha := nextArg_first t0 rest 0
  constructor
  · intro h
    rw [h] at ha
    simp [UnmarshalCaddyfile, hnext, ha.1]
  · intro h
    rw [h] at ha
    simp [UnmarshalCaddyfile, hnext, ha.1, ha.2 rfl, Dispenser.Nesting]

theorem exists_parsed_of_no_bad {W : Type} (reg : Registry W) (segs : List (List Token))
    (h : ∀ seg ∈ segs, ¬ (namesUnknownModule reg seg ∨ ownParserFails reg seg ∨
      lacksCapability reg seg)) :
    ∃ mods, List.Forall₂ (parsesTo reg) segs mods := by
  induction segs with
  | nil => exact ⟨[], List.Forall₂.nil⟩
  | cons seg rest ih =>
    obtain ⟨mods, hmods⟩ := ih (fun s hs => h s (List.mem_cons_of_mem _ hs))
    have hseg := h seg (List.mem_cons_self _ _)
    cases hreg : reg (directiveModuleID seg) with
    | none => exact absurd (Or.inl hreg) hseg
    | some info =>
      cases hparse : info.UnmarshalCaddyfile (NewDispenser seg) with
      | error err => exact absurd (Or.inr (Or.inl ⟨info, err, hreg, hparse⟩)) hseg
      | ok mod =>
        cases hcap : mod.asIPRangeSource with
        | none => exact absurd (Or.inr (Or.inr ⟨info, mod, hreg, hparse, hcap⟩)) hseg
        | some src =>
          exact ⟨mod :: mods, List.Forall₂.cons ⟨info, hreg, hparse, by simp [hcap]⟩ hmods⟩

theorem nestedDirectives_total (t0 : Token) (rest : List Token) :
    ∃ segs, nestedDirectives (t0 :: rest) = some segs := by
  unfold nestedDirectives
  apply blockDirectives_total
  · simp
  · simp only [List.length_cons, Nat.cast_add, Nat.cast_one]; omega
  · simp only [List.length_cons, Nat.cast_add, Nat.cast_one]; push_cast; omega

/-! ## Lemmas on blocks written one directive a line -/

theorem getD_append_at (pre : List Token) (x : Token) (post : List Token) (z : Token) :
    (pre ++ x :: post).getD pre.length z = x := by
  induction pre with
  | nil => rfl
  | cons p pre ih => simpa [List.getD_cons_succ] using ih

theorem getD_append_succ (pre : List Token) (x y : Token) (post : List Token) (z : Token) :
    (pre ++ x :: y :: post).getD (pre.length + 1) z = y := by
  have h := getD_append_at (pre ++ [x]) y post z
  simpa using h

theorem token_at (pre : List Token) (x : Token) (post : List Token) (n : Int) :
    Dispenser.Token { tokens := pre ++ x :: post, cursor := (pre.length : Int), nesting := n } = x := by
  have hc : ¬ (((pre.length : Int) < 0) ∨ (pre.length : Int) ≥ ((pre ++ x :: post).length : Int)) := by
    simp only [List.length_append, List.length_cons, Nat.cast_add, Nat.cast_one]; omega
  unfold Dispenser.Token
  simp only [hc, if_false]
  have : (pre.length : Int).toNat = pre.length := by omega
  rw [this, getD_append_at]

theorem next_at (pre : List Token) (x y : Token) (post : List Token) (n : Int) :
    Dispenser.Next { tokens := pre ++ x :: y :: post, cursor := (pre.length : Int), nesting := n } =
      (true, { tokens := pre ++ x :: y :: post, cursor := (pre.length : Int) + 1, nesting := n }) := by
  have hc : (pre.length : Int) < ((pre ++ x :: y :: post).length : Int) - 1 := by
    simp only [List.length_append, List.length_cons, Nat.cast_add, Nat.cast_one]; omega
  unfold Dispenser.Next
  simp only [hc, if_true]

theorem nextOnSameLine_at (pre : List Token) (x y : Token) (post : List Token) (n : Int) :
    Dispenser.nextOnSameLine
        { tokens := pre ++ x :: y :: post, cursor := (pre.length : Int), nesting := n } =
      if !isNextOnNewLine x y then
        (true, { tokens := pre ++ x :: y :: post, cursor := (pre.length : Int) + 1, nesting := n })
      else (false, { tokens := pre ++ x :: y :: post, cursor := (pre.length : Int), nesting := n }) := by
  have h0 : ¬ ((pre.length : Int) < 0) := by omega
  have hlen : ¬ ((pre.length : Int) ≥ ((pre ++ x :: y :: post).length : Int) - 1) := by
    simp only [List.length_append, List.length_cons, Nat.cast_add, Nat.cast_one]; omega
  have e1 : (pre ++ x :: y :: post).getD (pre.length : Int).toNat Token.zero = x := by
    have : (pre.length : Int).toNat = pre.length := by omega
    rw [this, getD_append_at]
  have e2 : (pre ++ x :: y :: post).getD ((pre.length : Int) + 1).toNat Token.zero = y := by
    have : ((pre.length : Int) + 1).toNat = pre.length + 1 := by omega
    rw [this, getD_append_succ]
  unfold Dispenser.nextOnSameLine
  simp only [h0, hlen, if_false, e1, e2]

theorem nextOnSameLine_end (pre : List Token) (x : Token) (n : Int) :
    Dispenser.nextOnSameLine { tokens := pre ++ [x], cursor := (pre.length : Int), nesting := n } =
      (false, { tokens := pre ++ [x], cursor := (pre.length : Int), nesting := n }) := by
  have h0 : ¬ ((pre.length : Int) < 0) := by omega
  have hlen : (pre.length : Int) ≥ ((pre ++ [x]).length : Int) - 1 := by
    simp only [List.length_append, List.length_cons, List.length_nil, Nat.cast_add, Nat.cast_one]; omega
  unfold Dispenser.nextOnSameLine
  simp only [h0, hlen, if_false, if_true]


theorem val_at (pre : List Token) (x : Token) (post : List Token) (n : Int) :
    Dispenser.Val { tokens := pre ++ x :: post, cursor := (pre.length : Int), nesting := n } = x.Text := by
  unfold Dispenser.Val
  rw [token_at]

/-- The state one token further, written with the longer front. -/
theorem dispenser_shift (pre : List Token) (x : Token) (post : List Token) (n : Int) :
    ({ tokens := pre ++ x :: post, cursor := (pre.length : Int) + 1, nesting := n } : Dispenser) =
      { tokens := (pre ++ [x]) ++ post, cursor := ((pre ++ [x]).length : Int), nesting := n } := by
  simp

theorem nextArg_at_same (pre : List Token) (x y : Token) (post : List Token) (n : Int)
    (hl : isNextOnNewLine x y = false) (hy : y.Text ≠ "\x7b") :
    Dispenser.NextArg { tokens := pre ++ x :: y :: post, cursor := (pre.length : Int), nesting := n } =
      (true, { tokens := (pre ++ [x]) ++ y :: post, cursor := ((pre ++ [x]).length : Int),
               nesting := n }) := by
  unfold Dispenser.NextArg
  rw [nextOnSameLine_at]
  simp only [hl, Bool.not_false, if_true, Bool.not_true, Bool.false_eq_true, if_false]
  rw [dispenser_shift, val_at]
  simp only [hy, if_false]

theorem nextArg_at_new (pre : List Token) (x y : Token) (post : List Token) (n : Int)
    (hl : isNextOnNewLine x y = true) :
    Dispenser.NextArg { tokens := pre ++ x :: y :: post, cursor := (pre.length : Int), nesting := n } =
      (false, { tokens := pre ++ x :: y :: post, cursor := (pre.length : Int), nesting := n }) := by
  unfold Dispenser.NextArg
  rw [nextOnSameLine_at]
  simp [hl]

theorem segmentArgs_line (args : List Token) (pre : List Token) (t p : Token) (post tkns : List Token)
    (fuel : Nat) (n : Int) (hline : onOneLine (t :: args) = true)
    (hargs : ∀ a ∈ args, a.Text ≠ "\x7b")
    (hnew : isNextOnNewLine ((t :: args).getLastD Token.zero) p = true)
    (hfuel : args.length < fuel) :
    ∃ init, t :: args = init ++ [(t :: args).getLastD Token.zero] ∧
      Dispenser.segmentArgs fuel tkns
        { tokens := pre ++ t :: (args ++ p :: post), cursor := (pre.length : Int), nesting := n } =
      some (tkns ++ args,
        { tokens := (pre ++ init) ++ (t :: args).getLastD Token.zero :: p :: post,
          cursor := ((pre ++ init).length : Int), nesting := n }) := by
  induction args generalizing pre t tkns fuel with
  | nil =>
    cases fuel with
    | zero => omega
    | succ fuel =>
      refine ⟨[], by simp, ?_⟩
      simp only [List.getLastD_cons, List.getLastD_nil] at hnew
      unfold Dispenser.segmentArgs
      simp only [List.nil_append, nextArg_at_new pre t p post n hnew]
      simp
  | cons a rest ih =>
    cases fuel with
    | zero => omega
    | succ fuel =>
      have h1 : isNextOnNewLine t a = false := by
        simp only [onOneLine, Bool.and_eq_true, Bool.not_eq_true'] at hline
        exact hline.1
      have h2 : onOneLine (a :: rest) = true := by
        simp only [onOneLine, Bool.and_eq_true] at hline
        exact hline.2
      have ha : a.Text ≠ "\x7b" := hargs a (List.mem_cons_self _ _)
      obtain ⟨init, hinit, hrun⟩ := ih (pre ++ [t]) a (tkns ++ [a]) fuel h2
        (fun x hx => hargs x (List.mem_cons_of_mem _ hx))
        (by simpa [List.getLastD_cons] using hnew) (by simpa using hfuel)
      refine ⟨t :: init, ?_, ?_⟩
      · simp only [List.getLastD_cons] at hinit ⊢
        rw [hinit]; simp
      · unfold Dispenser.segmentArgs
        simp only [List.cons_append, nextArg_at_same pre t a (rest ++ p :: post) n h1 ha, if_true]
        rw [token_at, hrun]
        simp [List.getLastD_cons]


theorem nextBlock_at_new (pre : List Token) (x y : Token) (post : List Token) (n : Int)
    (hl : isNextOnNewLine x y = true) :
    Dispenser.NextBlock n
        { tokens := pre ++ x :: y :: post, cursor := (pre.length : Int), nesting := n } =
      (false, { tokens := pre ++ x :: y :: post, cursor := (pre.length : Int), nesting := n }) := by
  have hn : ¬ (n > n) := by omega
  unfold Dispenser.NextBlock
  simp only [hn, if_false]
  rw [nextOnSameLine_at]
  simp [hl]

theorem nextSegment_line (args : List Token) (pre : List Token) (t p : Token) (post : List Token)
    (n : Int) (hline : onOneLine (t :: args) = true) (hargs : ∀ a ∈ args, a.Text ≠ "\x7b")
    (hnew : isNextOnNewLine ((t :: args).getLastD Token.zero) p = true) :
    ∃ init, t :: args = init ++ [(t :: args).getLastD Token.zero] ∧
      Dispenser.NextSegment
        { tokens := pre ++ t :: (args ++ p :: post), cursor := (pre.length : Int), nesting := n } =
      some (t :: args,
        { tokens := (pre ++ init) ++ (t :: args).getLastD Token.zero :: p :: post,
          cursor := ((pre ++ init).length : Int), nesting := n }) := by
  obtain ⟨init, hinit, hrun⟩ := segmentArgs_line args pre t p post [t]
    ((pre ++ t :: (args ++ p :: post)).length + 2) n hline hargs hnew
    (by simp only [List.length_append, List.length_cons]; omega)
  refine ⟨init, hinit, ?_⟩
  unfold Dispenser.NextSegment
  simp only [token_at, hrun]
  have hb : Dispenser.segmentBlock
      (((pre ++ init) ++ (t :: args).getLastD Token.zero :: p :: post).length + 2) n false
      ([t] ++ args)
      { tokens := (pre ++ init) ++ (t :: args).getLastD Token.zero :: p :: post,
        cursor := ((pre ++ init).length : Int), nesting := n } =
      some (false, [t] ++ args,
        { tokens := (pre ++ init) ++ (t :: args).getLastD Token.zero :: p :: post,
          cursor := ((pre ++ init).length : Int), nesting := n }) := by
    unfold Dispenser.segmentBlock
    simp only [nextBlock_at_new (pre ++ init) _ p post n hnew]
    simp
  simp only [Dispenser.Nesting, hb]
  simp


theorem plainDirective_cons (line : List Token) (h : plainDirective line = true) :
    ∃ t args, line = t :: args ∧ onOneLine (t :: args) = true ∧
      ∀ a ∈ t :: args, a.Text ≠ "\x7b" ∧ a.Text ≠ "\x7d" := by
  cases line with
  | nil => simp [plainDirective] at h
  | cons t args =>
    simp only [plainDirective, Bool.and_eq_true, List.all_eq_true, decide_eq_true_eq] at h
    exact ⟨t, args, rfl, h.2, h.1.2⟩

theorem nextBlock_inside_step (pre : List Token) (last t : Token) (post : List Token)
    (h1 : t.Text ≠ "\x7b") (h2 : t.Text ≠ "\x7d") :
    Dispenser.NextBlock 0
        { tokens := pre ++ last :: t :: post, cursor := (pre.length : Int), nesting := 1 } =
      (true, { tokens := (pre ++ [last]) ++ t :: post, cursor := ((pre ++ [last]).length : Int),
               nesting := 1 }) := by
  have hn : (1 : Int) > 0 := by omega
  unfold Dispenser.NextBlock
  simp only [hn, if_true, next_at, Bool.not_true, Bool.false_eq_true, if_false]
  rw [dispenser_shift]
  unfold Dispenser.blockStep
  simp only [val_at, h1, h2, if_false, Bool.false_eq_true]
  simp

theorem nextBlock_inside_close (pre : List Token) (last close : Token)
    (hc : close.Text = "\x7d") :
    (Dispenser.NextBlock 0
        { tokens := pre ++ [last, close], cursor := (pre.length : Int), nesting := 1 }).1 = false := by
  have hn : (1 : Int) > 0 := by omega
  unfold Dispenser.NextBlock
  simp only [hn, if_true, next_at, Bool.not_true, Bool.false_eq_true, if_false]
  rw [dispenser_shift]
  unfold Dispenser.blockStep
  simp only [val_at, hc, if_true, nextOnSameLine_end]
  simp

theorem blockDirectives_lines (close : Token) (hc : close.Text = "\x7d")
    (lines : List (List Token)) (pre : List Token) (last : Token) (fuel : Nat)
    (hlines : linesThenClose close last lines = true)
    (hfuel : lines.flatten.length < fuel) :
    blockDirectives fuel 0
        { tokens := pre ++ last :: (lines.flatten ++ [close]), cursor := (pre.length : Int),
          nesting := 1 } = some lines := by
  induction lines generalizing pre last fuel with
  | nil =>
    cases fuel with
    | zero => omega
    | succ fuel =>
      unfold blockDirectives
      simp only [List.flatten_nil, List.nil_append, nextBlock_inside_close pre last close hc]
      simp
  | cons line rest ih =>
    cases fuel with
    | zero => omega
    | succ fuel =>
      simp only [linesThenClose, Bool.and_eq_true] at hlines
      obtain ⟨⟨hplain, hnl⟩, hrest⟩ := hlines
      obtain ⟨t, args, rfl, hone, hnb⟩ := plainDirective_cons line hplain
      have ht := hnb t (List.mem_cons_self _ _)
      -- the token that follows the line
      obtain ⟨p, post, hp, hpnew⟩ : ∃ p post, rest.flatten ++ [close] = p :: post ∧
          isNextOnNewLine ((t :: args).getLastD Token.zero) p = true := by
        cases rest with
        | nil => exact ⟨close, [], by simp, by simpa [linesThenClose] using hrest⟩
        | cons l2 r2 =>
          simp only [linesThenClose, Bool.and_eq_true] at hrest
          obtain ⟨t2, a2, rfl, _, _⟩ := plainDirective_cons l2 hrest.1.1
          exact ⟨t2, a2 ++ (r2.flatten ++ [close]), by simp, by simpa using hrest.1.2⟩
      obtain ⟨init, hinit, hseg⟩ := nextSegment_line args (pre ++ [last]) t p post 1 hone
        (fun a ha => (hnb a (List.mem_cons_of_mem _ ha)).1) hpnew
      have hts : pre ++ last :: (((t :: args) :: rest).flatten ++ [close]) =
          pre ++ last :: t :: (args ++ p :: post) := by
        simp only [List.flatten_cons, List.cons_append, List.append_assoc, hp]
      have hts2 : (pre ++ [last]) ++ t :: (args ++ p :: post) =
          pre ++ last :: t :: (args ++ p :: post) := by simp
      unfold blockDirectives
      rw [hts, nextBlock_inside_step pre last t _ ht.1 ht.2]
      simp only [Bool.not_true, Bool.false_eq_true, if_false, hseg]
      have hih := ih (pre ++ [last] ++ init) ((t :: args).getLastD Token.zero) fuel hrest
        (by
          simp only [List.flatten_cons, List.length_append, List.length_cons] at hfuel
          omega)
      rw [hp] at hih
      rw [hih]


theorem nextBlock_open (kw brace x : Token) (post : List Token)
    (hb : brace.Text = "\x7b") (hl : isNextOnNewLine kw brace = false) :
    Dispenser.NextBlock 0 { tokens := kw :: brace :: x :: post, cursor := 0, nesting := 0 } =
      if x.Text = "\x7d" then
        (false, { tokens := kw :: brace :: x :: post, cursor := 2, nesting := 0 })
      else (true, { tokens := kw :: brace :: x :: post, cursor := 2, nesting := 1 }) := by
  have hn : ¬ ((0 : Int) > 0) := by omega
  have h1 : Dispenser.Val { tokens := kw :: brace :: x :: post, cursor := 1, nesting := 0 }
      = brace.Text := val_at [kw] brace (x :: post) 0
  have h2 : Dispenser.Next { tokens := kw :: brace :: x :: post, cursor := 1, nesting := 0 }
      = (true, { tokens := kw :: brace :: x :: post, cursor := 2, nesting := 0 }) :=
    next_at [kw] brace x post 0
  have h3 : Dispenser.Val { tokens := kw :: brace :: x :: post, cursor := 2, nesting := 0 }
      = x.Text := val_at [kw, brace] x post 0
  unfold Dispenser.NextBlock
  simp only [hn, if_false, nextOnSameLine_first, hl, Bool.not_false, if_true, Bool.not_true,
    Bool.false_eq_true, h1, hb, ne_eq, not_true_eq_false, h2, h3]
  split <;> simp

/-- A block written one plain directive a line is cut into its lines. -/
theorem nestedDirectives_plainBlock (kw brace close : Token) (lines : List (List Token))
    (h : plainBlock kw brace close lines = true) :
    nestedDirectives (kw :: brace :: (lines.flatten ++ [close])) = some lines := by
  simp only [plainBlock, Bool.and_eq_true, decide_eq_true_eq, Bool.not_eq_true'] at h
  obtain ⟨⟨⟨hb, hl⟩, hc⟩, hbody⟩ := h
  unfold nestedDirectives
  cases lines with
  | nil =>
    simp only [List.flatten_nil, List.nil_append, List.length_cons, List.length_nil]
    unfold blockDirectives
    simp only [nextBlock_open kw brace close [] hb hl, hc, if_true]
    simp
  | cons line rest =>
    simp only [Bool.and_eq_true] at hbody
    obtain ⟨hplain, hrest⟩ := hbody
    obtain ⟨t, args, rfl, hone, hnb⟩ := plainDirective_cons line hplain
    have ht := hnb t (List.mem_cons_self _ _)
    obtain ⟨p, post, hp, hpnew⟩ : ∃ p post, rest.flatten ++ [close] = p :: post ∧
        isNextOnNewLine ((t :: args).getLastD Token.zero) p = true := by
      cases rest with
      | nil => exact ⟨close, [], by simp, by simpa [linesThenClose] using hrest⟩
      | cons l2 r2 =>
        simp only [linesThenClose, Bool.and_eq_true] at hrest
        obtain ⟨t2, a2, rfl, _, _⟩ := plainDirective_cons l2 hrest.1.1
        exact ⟨t2, a2 ++ (r2.flatten ++ [close]), by simp, by simpa using hrest.1.2⟩
    obtain ⟨init, hinit, hseg⟩ := nextSegment_line args [kw, brace] t p post 1 hone
      (fun a ha => (hnb a (List.mem_cons_of_mem _ ha)).1) hpnew
    have hts : kw :: brace :: (((t :: args) :: rest).flatten ++ [close]) =
        kw :: brace :: t :: (args ++ p :: post) := by
      simp only [List.flatten_cons, List.cons_append, List.append_assoc, hp]
    have hseg2 : Dispenser.NextSegment
        { tokens := kw :: brace :: t :: (args ++ p :: post), cursor := 2, nesting := 1 } =
        some (t :: args,
          { tokens := ([kw, brace] ++ init) ++ (t :: args).getLastD Token.zero :: p :: post,
            cursor := (([kw, brace] ++ init).length : Int), nesting := 1 }) := hseg
    have hih := blockDirectives_lines close hc rest ([kw, brace] ++ init)
      ((t :: args).getLastD Token.zero)
      ((kw :: brace :: t :: (args ++ p :: post)).length + 1) hrest
      (by
        have hlen : (rest.flatten ++ [close]).length = (p :: post).length := by rw [hp]
        simp only [List.length_append, List.length_cons, List.length_nil] at hlen ⊢
        omega)
    rw [hp] at hih
    rw [hts]
    unfold blockDirectives
    simp only [nextBlock_open kw brace t _ hb hl, ht.2, if_false, Bool.not_true,
      Bool.false_eq_true, hseg2, hih]

/-! ## UnmarshalCaddyfile returns on every input -/

theorem unmarshalCaddyfile_total {W : Type} (reg : Registry W) (c : CombinedIPRange W)
    (tokens : List Token) :
    ∃ res, UnmarshalCaddyfile reg c (NewDispenser tokens) = some res := by
  cases tokens with
  | nil => exact ⟨_, rfl⟩
  | cons t0 rest =>
    have hfirst := unmarshalCaddyfile_first reg c t0 rest
    cases harg : argumentFollows (t0 :: rest)
    · obtain ⟨segs, hsegs⟩ := nestedDirectives_total t0 rest
      obtain ⟨res, hres, _⟩ := unmarshalLoop_spec reg _ 0 c _ segs hsegs
      exact ⟨res, by rw [hfirst.2 harg]; exact hres⟩
    · obtain ⟨res, hres, _⟩ := hfirst.1 harg
      exact ⟨res, hres⟩

/-- The combination of the two: for a block `combine {`, plain directives one
a line, `}`, each directive parsed by its module into an IP range source,
`UnmarshalCaddyfile` leaves one raw configuration per line, in order. -/
theorem unmarshal_plain_block {W : Type} (reg : Registry W) (c : CombinedIPRange W)
    (kw brace close : Token) (lines : List (List Token)) (mods : List (Module W))
    (hlayout : plainBlock kw brace close lines = true)
    (hparse : List.Forall₂ (parsesTo reg) lines mods) :
    ∃ res, UnmarshalCaddyfile reg c (NewDispenser (kw :: brace :: (lines.flatten ++ [close])))
        = some res ∧
      res.err = none ∧
      res.c.PartsRaw =
        c.PartsRaw ++ mods.map (fun m => JSONModuleObject m "source" (ModuleID.Name m.ID)) := by
  have hsegs := nestedDirectives_plainBlock kw brace close lines hlayout
  have hbrace : brace.Text = "\x7b" := by
    simp only [plainBlock, Bool.and_eq_true, decide_eq_true_eq] at hlayout
    exact hlayout.1.1.1
  have harg : argumentFollows (kw :: brace :: (lines.flatten ++ [close])) = false := by
    simp [argumentFollows, hbrace]
  obtain ⟨res, hres, _, _, hgood⟩ := unmarshalLoop_spec reg _ 0 c _ lines hsegs
  obtain ⟨h1, h2⟩ := hgood mods hparse
  exact ⟨res, by rw [(unmarshalCaddyfile_first reg c kw _).2 harg]; exact hres, h1, h2⟩

/-! ## Claims on GetIPRanges and Provision -/

/-- C1: for every component, request and world, `GetIPRanges` returns the
outputs of the children for that request, concatenated in the order of the
child list: nothing is removed, reordered or merged. -/
theorem getIPRanges_is_ordered_concatenation {W : Type} (c : CombinedIPRange W)
    (r : Option Request) (w : W) :
    (GetIPRanges c r w).result = (childOutputs r c.parts w).flatten := by
  rw [getIPRanges_eq]

/-- The scenario of `TestProvisionAndQuery`: children answering `1.1.1.1/24`
and `2001:db8::/32` give exactly these two prefixes, in this order, and a
repeated prefix is kept. -/
theorem getIPRanges_two_children :
    (GetIPRanges { CombinedIPRange.zero Unit with
        parts := [constSource Unit [prefixA], constSource Unit [prefixB]] } none ()).result
      = [prefixA, prefixB] ∧
    (GetIPRanges { CombinedIPRange.zero Unit with
        parts := [constSource Unit [prefixA], constSource Unit [prefixA]] } none ()).result
      = [prefixA, prefixA] := by
  decide

/-- C2: on a component whose child list is empty, `Provision` fails when the
modules cannot be loaded; when they load as `ms` it succeeds exactly if every
one of them is an IP range source, and then the child list is `ms`, viewed as
range sources, in the same order. -/
theorem provision_ok_iff_all_range_sources {W : Type} (ctx : Context W) (c : CombinedIPRange W)
    (hempty : c.parts = []) :
    (∀ e, (ctx.LoadModule c).2 = .error e → (Provision ctx c).err ≠ none) ∧
    (∀ ms, (ctx.LoadModule c).2 = .ok ms →
      ((Provision ctx c).err = none ↔ ∀ m ∈ ms, m.asIPRangeSource.isSome) ∧
      ((Provision ctx c).err = none →
        (Provision ctx c).c.parts.map some = ms.map (·.asIPRangeSource))) := by
  constructor
  · intro e he
    rw [(provision_of_load_error ctx c e he).1]
    simp
  · intro ms hms
    obtain ⟨herr, hc⟩ := provision_of_load_ok ctx c ms hms
    have hiff : (Provision ctx c).err = none ↔ ∀ m ∈ ms, m.asIPRangeSource.isSome := by
      constructor
      · intro hnone
        by_contra hall
        obtain ⟨pre, bad, post, he, hpre, hbad⟩ := exists_first_bad ms hall
        rw [herr, he, (provisionParts_bad pre bad post _ hpre hbad).1] at hnone
        simp at hnone
      · intro hall
        rw [herr]
        exact (provisionParts_all ms _ hall).1
    refine ⟨hiff, ?_⟩
    intro hnone
    rw [hc, (provisionParts_all ms _ (hiff.mp hnone)).2.1]
    simp [hempty]

/-- Witness of C2: the component of `TestProvisionAndQuery`, two raw
configurations that load as two range sources, starts with no children;
`Provision` succeeds and installs the two. -/
theorem provision_ok_iff_all_range_sources_witness :
    (exampleComponent Unit [.number 1, .number 2]).parts = [] ∧
    ((Provision (exampleContext Unit) (exampleComponent Unit [.number 1, .number 2])).err = none ↔
      ∀ m ∈ [fixedModule Unit [prefixA], fixedModule Unit [prefixB]], m.asIPRangeSource.isSome) ∧
    ((Provision (exampleContext Unit) (exampleComponent Unit [.number 1, .number 2])).err = none →
      (Provision (exampleContext Unit) (exampleComponent Unit [.number 1, .number 2])).c.parts.map some
        = [fixedModule Unit [prefixA], fixedModule Unit [prefixB]].map (·.asIPRangeSource)) :=
  ⟨rfl, (provision_ok_iff_all_range_sources (exampleContext Unit)
    (exampleComponent Unit [.number 1, .number 2]) rfl).2 _ rfl⟩

/-- C5, evaluated where the code departs from it: a loaded module of type
`*example.Bogus` lacks the capability, `Provision` fails, and the message is
`<nil> is not an IP range source`, in which the module's type does not occur. -/
theorem provision_error_omits_module_type :
    (Provision (exampleContext Unit)
        (exampleComponent Unit [.number 3])).err
      = some "<nil> is not an IP range source" ∧
    ((exampleContext Unit).LoadModule
        (exampleComponent Unit [.number 3])).2.toOption.map
          (fun ms => ms.map (·.goType)) = some ["*example.Bogus"] ∧
    ¬ ("*example.Bogus".data <:+: "<nil> is not an IP range source".data) := by
  refine ⟨by decide, by decide, by decide⟩

/-- The message of a failed capability check in `Provision` is the same for
every module. -/
theorem provision_capability_error_is_constant {W : Type} (ctx : Context W)
    (c : CombinedIPRange W) (ms : List (Module W)) (hload : (ctx.LoadModule c).2 = .ok ms)
    (hbad : ¬ ∀ m ∈ ms, m.asIPRangeSource.isSome) :
    (Provision ctx c).err = some "<nil> is not an IP range source" := by
  obtain ⟨pre, bad, post, he, hpre, hbad⟩ := exists_first_bad ms hbad
  rw [(provision_of_load_ok ctx c ms hload).1, he, (provisionParts_bad pre bad post _ hpre hbad).1]
  rfl

/-- C8: `GetIPRanges` leaves the component as it was, raw configuration list
and child list included, and the world afterwards is the one the children's
own calls produce, made in order. -/
theorem getIPRanges_read_only {W : Type} (c : CombinedIPRange W) (r : Option Request) (w : W) :
    (GetIPRanges c r w).c = c ∧
    (GetIPRanges c r w).c.PartsRaw = c.PartsRaw ∧
    (GetIPRanges c r w).c.parts = c.parts ∧
    (GetIPRanges c r w).world = childEffects r c.parts w := by
  rw [getIPRanges_eq]
  exact ⟨rfl, rfl, rfl, rfl⟩

theorem childOutputs_nested {W : Type} (r : Option Request) (cs : List (CombinedIPRange W)) (w : W) :
    (childOutputs r (cs.map CombinedIPRange.toIPRangeSource) w).flatten =
        (childOutputs r (cs.map (·.parts)).flatten w).flatten ∧
      childEffects r (cs.map CombinedIPRange.toIPRangeSource) w =
        childEffects r (cs.map (·.parts)).flatten w := by
  induction cs generalizing w with
  | nil => simp [childOutputs, childEffects]
  | cons c cs ih =>
    have h := ih (childEffects r c.parts w)
    simp only [List.map_cons, List.flatten_cons, childOutputs, childEffects,
      CombinedIPRange.toIPRangeSource, getIPRanges_eq, childOutputs_append, childEffects_append,
      List.flatten_append]
    exact ⟨by rw [h.1], h.2⟩

/-- C9: a component whose children are themselves components over the child
lists `L1, ..., Lk` answers, and leaves the world, as one component over
`L1 ++ ... ++ Lk` does; a nested component without children answers with
nothing and changes nothing, and a component with one child answers as that
child does. -/
theorem nesting_equals_flattening {W : Type} (outer flat : CombinedIPRange W)
    (cs : List (CombinedIPRange W)) (r : Option Request) (w : W) :
    ((GetIPRanges { outer with parts := cs.map CombinedIPRange.toIPRangeSource } r w).result =
        (GetIPRanges { flat with parts := (cs.map (·.parts)).flatten } r w).result ∧
      (GetIPRanges { outer with parts := cs.map CombinedIPRange.toIPRangeSource } r w).world =
        (GetIPRanges { flat with parts := (cs.map (·.parts)).flatten } r w).world) ∧
    ({ flat with parts := [] }.toIPRangeSource.GetIPRanges r w = ([], w)) ∧
    (∀ p : IPRangeSource W,
      ((GetIPRanges { outer with parts := [p] } r w).result,
        (GetIPRanges { outer with parts := [p] } r w).world) = p.GetIPRanges r w) := by
  refine ⟨?_, ?_, ?_⟩
  · simp only [getIPRanges_eq]
    exact childOutputs_nested r cs w
  · simp [CombinedIPRange.toIPRangeSource, getIPRanges_eq, childOutputs, childEffects]
  · intro p
    simp [getIPRanges_eq, childOutputs, childEffects]

/-- C10: when the modules load as `ms`, `Provision` appends to the child list
`q` it finds.  If all of `ms` are range sources it succeeds with `q ++ ms`.
If `bad` is the first that is not, it fails, the list is `q` followed by the
modules before `bad`, and a later `GetIPRanges` answers with the outputs of
exactly these children. -/
theorem provision_appends_without_rollback {W : Type} (ctx : Context W) (c : CombinedIPRange W)
    (ms : List (Module W)) (hload : (ctx.LoadModule c).2 = .ok ms) :
    ((∀ m ∈ ms, m.asIPRangeSource.isSome) →
      (Provision ctx c).err = none ∧
      (Provision ctx c).c.parts.map some = c.parts.map some ++ ms.map (·.asIPRangeSource)) ∧
    (∀ pre bad post, ms = pre ++ bad :: post → (∀ m ∈ pre, m.asIPRangeSource.isSome) →
      bad.asIPRangeSource = none →
      (Provision ctx c).err ≠ none ∧
      (Provision ctx c).c.parts.map some = c.parts.map some ++ pre.map (·.asIPRangeSource) ∧
      ∀ r w, (GetIPRanges (Provision ctx c).c r w).result =
        (childOutputs r (c.parts ++ pre.filterMap (·.asIPRangeSource)) w).flatten) := by
  obtain ⟨herr, hc⟩ := provision_of_load_ok ctx c ms hload
  constructor
  · intro hall
    have h := provisionParts_all ms
      { c with PartsRaw := [], ctx := some ctx, logger := some ctx.Logger } hall
    exact ⟨by rw [herr]; exact h.1, by rw [hc]; exact h.2.1⟩
  · intro pre bad post he hpre hbad
    have h := provisionParts_bad pre bad post
      { c with PartsRaw := [], ctx := some ctx, logger := some ctx.Logger } hpre hbad
    rw [herr, hc, he]
    refine ⟨by rw [h.1]; simp, h.2.1, ?_⟩
    intro r w
    rw [getIPRanges_eq, h.2.2]

/-- Witness of C10: three raw configurations of which the second loads as a
module without the capability.  `Provision` fails, and the first child stays
installed behind the one that was there before. -/
theorem provision_appends_without_rollback_witness :
    ((exampleContext Unit).LoadModule
        { exampleComponent Unit [.number 1, .number 3, .number 2] with
          parts := [constSource Unit [prefixB]] }).2.toOption.map (fun ms => ms.map (·.goType))
      = some ["*example.Fixed", "*example.Bogus", "*example.Fixed"] ∧
    (Provision (exampleContext Unit)
        { exampleComponent Unit [.number 1, .number 3, .number 2] with
          parts := [constSource Unit [prefixB]] }).err ≠ none ∧
    (GetIPRanges (Provision (exampleContext Unit)
        { exampleComponent Unit [.number 1, .number 3, .number 2] with
          parts := [constSource Unit [prefixB]] }).c none ()).result = [prefixB, prefixA] :=
  ⟨by decide,
   ((provision_appends_without_rollback (exampleContext Unit)
      { exampleComponent Unit [.number 1, .number 3, .number 2] with
        parts := [constSource Unit [prefixB]] }
      [fixedModule Unit [prefixA], bogusModule Unit, fixedModule Unit [prefixB]] rfl).2
      [fixedModule Unit [prefixA]] (bogusModule Unit) [fixedModule Unit [prefixB]] rfl
      (by simp [fixedModule]) rfl).1,
   by decide⟩

/-- C3, as amended: with no raw child configuration, `Provision` succeeds,
logs the one warning and leaves the child list as it found it, so that
`GetIPRanges` answers afterwards as it did before; if the component had no
children before the call, as the one parsed from `combine { }` has none,
`GetIPRanges` then returns the empty sequence for every request. -/
theorem provision_empty_succeeds {W : Type} (reg : Registry W) (ctx : Context W)
    (c : CombinedIPRange W) (hraw : c.PartsRaw = []) :
    (Provision ctx c).err = none ∧
    (Provision ctx c).logs =
      [{ level := "warn", msg := "combine ip range: no sub-ranges provided" }] ∧
    (Provision ctx c).c.parts = c.parts ∧
    (c.parts = [] → ∀ r w, (GetIPRanges (Provision ctx c).c r w).result = []) ∧
    (∀ r w, (GetIPRanges (Provision ctx c).c r w).result = (GetIPRanges c r w).result) ∧
    (∃ res, UnmarshalCaddyfile reg (CombinedIPRange.zero W)
        (NewDispenser [tok 1 "combine", tok 1 "\x7b", tok 1 "\x7d"]) = some res ∧
      res.err = none ∧ res.c.PartsRaw = [] ∧ res.c.parts = []) := by
  have hload : (ctx.LoadModule c).2 = .ok [] := by
    rw [loadModule_snd, hraw]; rfl
  obtain ⟨herr, hc⟩ := provision_of_load_ok ctx c [] hload
  have hparts : (Provision ctx c).c.parts = c.parts := by rw [hc]; rfl
  refine ⟨by rw [herr]; rfl, ?_, hparts, ?_, ?_, ?_⟩
  · simp only [Provision, hraw]
    split <;> rfl
  · intro hnil r w
    rw [getIPRanges_eq, hparts, hnil]
    rfl
  · intro r w
    rw [getIPRanges_eq, getIPRanges_eq, hparts]
  · exact ⟨_, rfl, rfl, rfl, rfl⟩

/-- C3 as first worded fails: a component that was provisioned from one raw
configuration has none left (the host clears the field) and one child.
Provisioned again it has zero raw configurations, `Provision` succeeds, and
`GetIPRanges` returns `1.1.1.1/24`, not the empty sequence. -/
theorem provision_empty_keeps_earlier_children :
    (Provision (exampleContext Unit) (exampleComponent Unit [.number 1])).c.PartsRaw = [] ∧
    (Provision (exampleContext Unit)
      (Provision (exampleContext Unit) (exampleComponent Unit [.number 1])).c).err = none ∧
    (GetIPRanges (Provision (exampleContext Unit)
      (Provision (exampleContext Unit) (exampleComponent Unit [.number 1])).c).c none ()).result
        = [prefixA] ∧
    (GetIPRanges (Provision (exampleContext Unit)
      (Provision (exampleContext Unit) (exampleComponent Unit [.number 1])).c).c none ()).result
        ≠ [] :=
  ⟨rfl, rfl, by decide, by decide⟩

/-- Witness of C3: the zero value, which is what `combine { }` parses to. -/
theorem provision_empty_succeeds_witness :
    (CombinedIPRange.zero Unit).PartsRaw = [] ∧
    (Provision (exampleContext Unit) (CombinedIPRange.zero Unit)).err = none ∧
    (GetIPRanges (Provision (exampleContext Unit) (CombinedIPRange.zero Unit)).c none ()).result
      = [] :=
  ⟨rfl,
   (provision_empty_succeeds (staticRegistry Unit) (exampleContext Unit)
      (CombinedIPRange.zero Unit) rfl).1,
   (provision_empty_succeeds (staticRegistry Unit) (exampleContext Unit)
      (CombinedIPRange.zero Unit) rfl).2.2.2.1 rfl none ()⟩

/-! ## Claims on UnmarshalCaddyfile -/

/-- C7: for a text configuration whose first token is `combine`,
`UnmarshalCaddyfile` returns, and it returns an error exactly if an argument
follows `combine` on its line, or a nested directive names an unknown module
or is rejected by its module's own parser, or a nested directive's module is
not an IP range source.  (The proof does not use that the first token reads
`combine`: the code does not act on it.) -/
theorem unmarshal_error_iff {W : Type} (reg : Registry W) (c : CombinedIPRange W)
    (t0 : Token) (rest : List Token) (hkw : t0.Text = "combine") :
    ∃ res segs, UnmarshalCaddyfile reg c (NewDispenser (t0 :: rest)) = some res ∧
      nestedDirectives (t0 :: rest) = some segs ∧
      (res.err ≠ none ↔
        argumentFollows (t0 :: rest) = true ∨
        (∃ seg ∈ segs, namesUnknownModule reg seg ∨ ownParserFails reg seg) ∨
        (∃ seg ∈ segs, lacksCapability reg seg)) := by
  obtain ⟨segs, hsegs⟩ := nestedDirectives_total t0 rest
  have hfirst := unmarshalCaddyfile_first reg c t0 rest
  cases harg : argumentFollows (t0 :: rest)
  · obtain ⟨res, hres, _, hbad, hgood⟩ := unmarshalLoop_spec reg _ 0 c _ segs hsegs
    refine ⟨res, segs, by rw [hfirst.2 harg]; exact hres, hsegs, ?_⟩
    constructor
    · intro herr
      by_contra hno
      have hall : ∀ seg ∈ segs, ¬ (namesUnknownModule reg seg ∨ ownParserFails reg seg ∨
          lacksCapability reg seg) := by
        intro seg hs hb
        apply hno
        rcases hb with hu | hf | hl
        · exact Or.inr (Or.inl ⟨seg, hs, Or.inl hu⟩)
        · exact Or.inr (Or.inl ⟨seg, hs, Or.inr hf⟩)
        · exact Or.inr (Or.inr ⟨seg, hs, hl⟩)
      obtain ⟨mods, hmods⟩ := exists_parsed_of_no_bad reg segs hall
      exact herr (hgood mods hmods).1
    · rintro (h | ⟨seg, hs, hu | hf⟩ | ⟨seg, hs, hl⟩)
      · cases h
      · exact hbad ⟨seg, hs, Or.inl hu⟩
      · exact hbad ⟨seg, hs, Or.inr (Or.inl hf)⟩
      · exact hbad ⟨seg, hs, Or.inr (Or.inr hl)⟩
  · obtain ⟨res, hres, herr, _⟩ := hfirst.1 harg
    exact ⟨res, segs, hres, hsegs, ⟨fun _ => Or.inl rfl, fun _ => herr⟩⟩

/-- C4: for a text block that opens with `combine {` and whose nested
directives are `segs`, each naming a registered module whose own parser
turns it into an IP range source, `UnmarshalCaddyfile` on a value without raw
configurations returns no error and leaves one raw configuration per
directive, in the order of the directives: the JSON encoding of what the
module's parser produced, with the member `source` set to the module's name. -/
theorem unmarshal_collects_directives {W : Type} (reg : Registry W) (c : CombinedIPRange W)
    (kw brace : Token) (rest : List Token) (segs : List (List Token)) (mods : List (Module W))
    (hkw : kw.Text = "combine") (hbrace : brace.Text = "\x7b")
    (hline : isNextOnNewLine kw brace = false)
    (hsegs : nestedDirectives (kw :: brace :: rest) = some segs)
    (hparse : List.Forall₂ (parsesTo reg) segs mods)
    (hraw : c.PartsRaw = []) :
    ∃ res, UnmarshalCaddyfile reg c (NewDispenser (kw :: brace :: rest)) = some res ∧
      res.err = none ∧
      res.c.PartsRaw = mods.map (fun m => JSONModuleObject m "source" (ModuleID.Name m.ID)) ∧
      res.c.PartsRaw.length = segs.length := by
  have harg : argumentFollows (kw :: brace :: rest) = false := by
    simp [argumentFollows, hbrace]
  obtain ⟨res, hres, _, _, hgood⟩ := unmarshalLoop_spec reg _ 0 c _ segs hsegs
  obtain ⟨h1, h2⟩ := hgood mods hparse
  refine ⟨res, ?_, h1, ?_, ?_⟩
  · rw [(unmarshalCaddyfile_first reg c kw (brace :: rest)).2 harg]; exact hres
  · rw [h2, hraw]; simp
  · rw [h2, hraw]; simp [hparse.length_eq]

/-- Witness of C4: the text of `TestUnmarshal`.  Its nested directives are the
two `static` lines, and the two raw configurations are the `static` ranges
`1.1.1.1/24` and `2001:db8::/32`, tagged `source: static`, in this order. -/
theorem unmarshal_collects_directives_witness :
    nestedDirectives testUnmarshalTokens =
      some [[tok 2 "static", tok 2 "1.1.1.1/24"], [tok 3 "static", tok 3 "2001:db8::/32"]] ∧
    ∃ res, UnmarshalCaddyfile (staticRegistry Unit) (CombinedIPRange.zero Unit)
        (NewDispenser testUnmarshalTokens) = some res ∧
      res.err = none ∧
      res.c.PartsRaw =
        [.object [("ranges", .array [.string "1.1.1.1/24"]), ("source", .string "static")],
         .object [("ranges", .array [.string "2001:db8::/32"]), ("source", .string "static")]] ∧
      res.c.PartsRaw.length = 2 :=
  ⟨by decide,
   unmarshal_collects_directives (staticRegistry Unit) (CombinedIPRange.zero Unit)
     (tok 1 "combine") (tok 1 "\x7b")
     [tok 2 "static", tok 2 "1.1.1.1/24", tok 3 "static", tok 3 "2001:db8::/32", tok 4 "\x7d"]
     [[tok 2 "static", tok 2 "1.1.1.1/24"], [tok 3 "static", tok 3 "2001:db8::/32"]]
     [StaticIPRange Unit ["1.1.1.1/24"], StaticIPRange Unit ["2001:db8::/32"]]
     rfl rfl (by decide) (by decide)
     (List.Forall₂.cons ⟨_, rfl, rfl, rfl⟩ (List.Forall₂.cons ⟨_, rfl, rfl, rfl⟩ List.Forall₂.nil))
     rfl⟩

/-- Witness of C7: `combine` followed by a block whose only directive names a
module that is not registered; an error is returned. -/
theorem unmarshal_error_iff_witness :
    (tok 1 "combine").Text = "combine" ∧
    ∃ res segs, UnmarshalCaddyfile (staticRegistry Unit) (CombinedIPRange.zero Unit)
        (NewDispenser [tok 1 "combine", tok 1 "\x7b", tok 2 "nosuch", tok 3 "\x7d"]) = some res ∧
      nestedDirectives [tok 1 "combine", tok 1 "\x7b", tok 2 "nosuch", tok 3 "\x7d"] = some segs ∧
      (res.err ≠ none ↔
        argumentFollows [tok 1 "combine", tok 1 "\x7b", tok 2 "nosuch", tok 3 "\x7d"] = true ∨
        (∃ seg ∈ segs, namesUnknownModule (staticRegistry Unit) seg ∨
          ownParserFails (staticRegistry Unit) seg) ∨
        (∃ seg ∈ segs, lacksCapability (staticRegistry Unit) seg)) :=
  ⟨rfl, unmarshal_error_iff (staticRegistry Unit) (CombinedIPRange.zero Unit)
    (tok 1 "combine") [tok 1 "\x7b", tok 2 "nosuch", tok 3 "\x7d"] rfl⟩

/-- C6, evaluated where the code departs from it: the text `foo` and the text
`foo { static 1.1.1.1/24 }` (one token a line inside the block) do not begin
with `combine`, and `UnmarshalCaddyfile` returns no error for either; the
second even yields a raw configuration.  The text without any token does get
an error, but it is the one for an unexpected argument. -/
theorem unmarshal_accepts_other_keyword :
    (∃ res, UnmarshalCaddyfile (staticRegistry Unit) (CombinedIPRange.zero Unit)
        (NewDispenser [tok 1 "foo"]) = some res ∧ res.err = none) ∧
    (∃ res, UnmarshalCaddyfile (staticRegistry Unit) (CombinedIPRange.zero Unit)
        (NewDispenser [tok 1 "foo", tok 1 "\x7b", tok 2 "static", tok 2 "1.1.1.1/24",
          tok 3 "\x7d"]) = some res ∧
      res.err = none ∧ res.c.PartsRaw.length = 1) ∧
    (∃ res, UnmarshalCaddyfile (staticRegistry Unit) (CombinedIPRange.zero Unit)
        (NewDispenser []) = some res ∧ res.err ≠ none) :=
  ⟨⟨_, rfl, rfl⟩, ⟨_, rfl, rfl, rfl⟩, ⟨_, rfl, by simp⟩⟩

end Combine
